import Mathlib

/-!
# Verification of `electrum/migration.py` (FactWallet data-directory migration)

A shallow embedding of the migration module of FactWallet.  The on-disk
state is modelled as a tree of nodes (regular files with string content,
unix sockets, and directories holding named entries); paths are lists of
path components.  The Python functions `is_factwallet_data`,
`perform_migration` (with its inner `ignore_sockets` callback),
`run_migration` and `check_for_migration` are translated to Lean
functions over this state, with the standard-library primitives they
call (`shutil.move`, `shutil.copytree`, `os.makedirs`-style directory
creation, `open`/`json.load`) embedded by their documented net effects.
Exceptions are modelled with `Except`; functions whose Python bodies
catch all exceptions are total.
-/

/-- A node of the on-disk tree: a regular file with byte content
(modelled as a string), a unix socket special file, or a directory whose
entries are an association list from names to child nodes (names in a
real directory are unique; hypotheses state this where it matters). -/
inductive Node where
  | file (content : String)
  | sock
  | dir (entries : List (String × Node))

/-- A filesystem path, as the list of its components. -/
abbrev FPath := List String

/-- First binding of a key in an association list (directory entry lookup). -/
def findA {α : Type} : List (String × α) → String → Option α
  | [], _ => none
  | (a, n) :: rest, k => if a = k then some n else findA rest k

/-- Replace the first binding of a key, or append a fresh binding. -/
def setA {α : Type} : List (String × α) → String → α → List (String × α)
  | [], k, v => [(k, v)]
  | (a, b) :: rest, k, v => if a = k then (k, v) :: rest else (a, b) :: setA rest k v

/-- Remove all bindings of a key. -/
def eraseA {α : Type} : List (String × α) → String → List (String × α)
  | [], _ => []
  | (a, b) :: rest, k => if a = k then eraseA rest k else (a, b) :: eraseA rest k

/-- Resolve a path in a tree: follow one directory entry per component. -/
def Node.lookup : Node → FPath → Option Node
  | n, [] => some n
  | .dir es, k :: ks =>
      match findA es k with
      | some c => c.lookup ks
      | none => none
  | _, _ :: _ => none
termination_by _ p => p.length

/-- `os.path.exists`: the path resolves to some node. -/
def Node.exists (fs : Node) (p : FPath) : Bool :=
  (fs.lookup p).isSome

/-- `os.path.isdir`: the path resolves to a directory. -/
def Node.isDir (fs : Node) (p : FPath) : Bool :=
  match fs.lookup p with
  | some (.dir _) => true
  | _ => false

/-- A fresh chain of single-entry directories ending in the given node
(what creating a path under a directory that lacks it produces). -/
def mkPath : FPath → Node → Node
  | [], m => m
  | k :: ks, m => .dir [(k, mkPath ks m)]

/-- Store a node at a path, replacing whatever was there and creating
missing intermediate directories; a non-directory node blocking the
path leaves the tree unchanged (callers check reachability first, the
way the Python code relies on the OS raising `ENOTDIR`/`ENOENT`). -/
def Node.insertAt : Node → FPath → Node → Node
  | _, [], m => m
  | .dir es, k :: ks, m =>
      match findA es k with
      | some c => .dir (setA es k (c.insertAt ks m))
      | none => .dir (setA es k (mkPath ks m))
  | n, _ :: _, _ => n
termination_by _ p _ => p.length

/-- Remove the node at a path (no-op when the path does not resolve). -/
def Node.eraseAt : Node → FPath → Node
  | n, [] => n
  | .dir es, [k] => .dir (eraseA es k)
  | .dir es, k :: ks =>
      match findA es k with
      | some c => .dir (setA es k (c.eraseAt ks))
      | none => .dir es
  | n, _ :: _ => n
termination_by _ p => p.length

/-- Every proper prefix of the path resolves to a directory or is
absent, so storing at the path is not blocked by a non-directory. -/
def clearFor : Node → FPath → Bool
  | _, [] => true
  | .dir es, k :: ks =>
      match findA es k with
      | some c => clearFor c ks
      | none => true
  | _, _ :: _ => false
termination_by _ p => p.length

/-- `os.path.basename` of a component-list path. -/
def lastName (p : FPath) : String :=
  (p.getLast?).getD ""

/-- Render a component-list path the way the Python code holds it as a
single string, components joined by the separator (used only inside
messages and the marker file text). -/
def renderPath : FPath → String
  | [] => ""
  | [x] => x
  | x :: y :: rest => x ++ "/" ++ renderPath (y :: rest)

/-- The Python exceptions this module can see, by kind and message data. -/
inductive PyErr where
  | fileNotFound (path : String)
  | destExists (path : String)
  | notADirectory (path : String)
  | invalidMove (path : String)
  | isADirectory (path : String)
  | oserror (path : String)
  | attributeError
  | keyError (key : String)
  | exception (msg : String)
  deriving DecidableEq, Repr

/-- `open(p).read()`: succeeds on a regular file, raises `OSError`
subclasses on directories, sockets and missing paths. -/
def readFile (fs : Node) (p : FPath) : Except PyErr String :=
  match fs.lookup p with
  | some (.file c) => .ok c
  | some (.dir _) => .error (.isADirectory (renderPath p))
  | some .sock => .error (.oserror (renderPath p))
  | none => .error (.fileNotFound (renderPath p))

/-- `open(p, "w"); f.write(content)`: creates or truncates a regular
file; raises on a directory or socket at the path, or when the parent
directory does not exist. -/
def writeFile (fs : Node) (p : FPath) (content : String) : Except PyErr Node :=
  if fs.isDir p.dropLast then
    match fs.lookup p with
    | some (.dir _) => .error (.isADirectory (renderPath p))
    | some .sock => .error (.oserror (renderPath p))
    | _ => .ok (fs.insertAt p (.file content))
  else .error (.fileNotFound (renderPath p))

/-! ## The migration executor (`perform_migration`, lines 74-117) -/

/-- `stat.S_ISSOCK`: the file-type bits of an `st_mode` word equal
`S_IFSOCK` (`0o140000`). -/
def S_ISSOCK (m : Nat) : Bool :=
  m &&& 0xF000 = 0xC000

/-- `st_mode` of a regular file (`S_IFREG`). -/
def modeFile : Nat := 0x8000

/-- `st_mode` of a directory (`S_IFDIR`). -/
def modeDir : Nat := 0x4000

/-- `st_mode` of a unix socket (`S_IFSOCK`). -/
def modeSock : Nat := 0xC000

/-- The `ignore_sockets` callback defined inside `perform_migration`
(migration.py lines 96-106): given the names listed in one directory,
return those whose `os.stat` succeeds and reports a socket; a name
whose `stat` raises is left out of the returned ignore list (the code
comments "Let files we can't identify pass").  `statOf` abstracts
`os.stat(os.path.join(dir, f)).st_mode`, with `none` for a raising
`stat`. -/
def ignore_sockets (statOf : String → Option Nat) (files : List String) : List String :=
  files.foldl
    (fun socket_files f =>
      match statOf f with
      | some m => if S_ISSOCK m then socket_files ++ [f] else socket_files
      | none => socket_files)
    []

/-- `os.stat` restricted to the immediate entries of a directory with
entry list `es`, as `shutil.copytree` presents them to the `ignore`
callback: the mode word of the named child, `none` when absent. -/
def statOfEntries (es : List (String × Node)) (f : String) : Option Nat :=
  match findA es f with
  | some (.file _) => some modeFile
  | some .sock => some modeSock
  | some (.dir _) => some modeDir
  | none => none

/-- `shutil.move(src, dst)` by its documented net effect: when `dst` is
an existing directory the real destination is `dst/basename(src)` and
an existing real destination is rejected; otherwise the source node is
renamed to the destination, failing when the source is missing, when a
directory would overwrite an existing non-directory, when the
destination parent does not exist, or when the source would be moved
into itself. -/
def sh_move (fs : Node) (src dst : FPath) : Except PyErr Node :=
  let realDst := if fs.isDir dst then dst ++ [lastName src] else dst
  if fs.isDir dst && fs.exists realDst then
    .error (.destExists (renderPath realDst))
  else
    match fs.lookup src with
    | none => .error (.fileNotFound (renderPath src))
    | some n =>
        match fs.lookup realDst with
        | some (.dir _) => .error (.destExists (renderPath realDst))
        | some _ =>
            match n with
            | .dir _ => .error (.notADirectory (renderPath realDst))
            | _ => .ok ((fs.eraseAt src).insertAt realDst n)
        | none =>
            if src.isPrefixOf realDst then .error (.invalidMove (renderPath src))
            else if (fs.eraseAt src).isDir realDst.dropLast then
              .ok ((fs.eraseAt src).insertAt realDst n)
            else .error (.fileNotFound (renderPath realDst.dropLast))

/-- Modelled from the spec: `make_dir` from `electrum.util` is not under
src/; section 4.2 step 2 describes it as "Create `target` directory
(and any missing parent directories)", tolerant of pre-existing paths
(step 2 "tolerates pre-existing paths"). -/
def make_dir (fs : Node) (p : FPath) : Node :=
  if fs.exists p then fs else fs.insertAt p (.dir [])

mutual

/-- `shutil.copytree(src, dst, dirs_exist_ok=True, ignore=ignore_sockets)`
on the snapshot `srcNode` of the source tree (the copy only writes
under `dst`, so for non-overlapping source and destination the snapshot
agrees with re-scanning): list the entries, ask `ignore_sockets` which
names to skip, create the destination directory (tolerating an existing
one, per `dirs_exist_ok=True`), then copy the remaining entries,
collecting per-entry errors; a non-empty error list is the
`shutil.Error` raised at the end. -/
def copyTree (srcNode : Node) (fs : Node) (dst : FPath) : Node × List String :=
  match srcNode with
  | .dir es =>
      let ignored := ignore_sockets (statOfEntries es) (es.map (fun e => e.1))
      match fs.lookup dst with
      | some (.dir _) => copyEntries es ignored fs dst
      | some _ => (fs, ["makedirs: " ++ renderPath dst ++ " exists and is not a directory"])
      | none =>
          if clearFor fs dst then copyEntries es ignored (fs.insertAt dst (.dir [])) dst
          else (fs, ["makedirs: cannot create " ++ renderPath dst])
  | _ => (fs, ["scandir: not a directory"])

/-- The entry loop of `shutil.copytree`: skip ignored names; recurse
into subdirectories; copy regular files with `copy2` (overwriting an
existing regular file, failing on a directory or socket in the way);
copying a non-ignored socket fails as `copy2` cannot open it.  Errors
are collected in order, as `copytree` accumulates them. -/
def copyEntries (es : List (String × Node)) (ignored : List String) (fs : Node) (dst : FPath) :
    Node × List String :=
  match es with
  | [] => (fs, [])
  | (name, child) :: rest =>
      if name ∈ ignored then copyEntries rest ignored fs dst
      else
        let step : Node × List String :=
          match child with
          | .dir _ => copyTree child fs (dst ++ [name])
          | .file c =>
              match fs.lookup (dst ++ [name]) with
              | some (.dir _) => (fs, ["copy2: " ++ renderPath (dst ++ [name]) ++ " is a directory"])
              | some .sock => (fs, ["copy2: cannot write " ++ renderPath (dst ++ [name])])
              | _ => (fs.insertAt (dst ++ [name]) (.file c), [])
          | .sock => (fs, ["copy2: cannot copy socket " ++ renderPath (dst ++ [name])])
        match copyEntries rest ignored step.1 dst with
        | (fs2, errs2) => (fs2, step.2 ++ errs2)

end

/-- The name of the marker file written into the target directory
(migration.py line 110). -/
def markerName : String := ".migrated_from_electrum"

/-- The text written to the marker file (migration.py line 112), with
`now` standing for `datetime.datetime.now().isoformat()`. -/
def markerContent (electrum backup factwallet now : String) : String :=
  "Migrated from `" ++ electrum ++ "` (backup: `" ++ backup ++ "`) to `"
    ++ factwallet ++ "` on " ++ now

/-- Step 3 of `perform_migration`: the `shutil.copytree` call on the backup
tree, whose `os.scandir(src)` raises when the backup path is missing. -/
def copy_step (fs2 : Node) (backup_dir factwallet_dir : FPath) : Node × List String :=
  match fs2.lookup backup_dir with
  | none => (fs2, ["scandir: " ++ renderPath backup_dir ++ " does not exist"])
  | some n => copyTree n fs2 factwallet_dir

/-- `perform_migration(electrum_dir, backup_dir, factwallet_dir)`
(migration.py lines 74-117): move the source to the backup, create the
target, copy the backup tree into the target skipping sockets, write
the marker file; any exception at any step is caught and turned into
the return value `False`, leaving the state as the failing step left
it.  `now` stands for `datetime.datetime.now().isoformat()`. -/
def perform_migration (fs : Node) (electrum_dir backup_dir factwallet_dir : FPath)
    (now : String) : Bool × Node :=
  match sh_move fs electrum_dir backup_dir with
  | .error _ => (false, fs)
  | .ok fs1 =>
      let fs2 := make_dir fs1 factwallet_dir
      match copy_step fs2 backup_dir factwallet_dir with
      | (fs3, _ :: _) => (false, fs3)
      | (fs3, []) =>
          match writeFile fs3 (factwallet_dir ++ [markerName])
              (markerContent (renderPath electrum_dir) (renderPath backup_dir)
                (renderPath factwallet_dir) now) with
          | .error _ => (false, fs3)
          | .ok fs4 => (true, fs4)

/-! ## The fingerprint detector (`is_factwallet_data`, lines 38-71) -/

/-- A parsed JSON value, as `json.load` can return it. -/
inductive Json where
  | null
  | bool (b : Bool)
  | num (n : Int)
  | str (s : String)
  | arr (elems : List Json)
  | obj (fields : List (String × Json))

/-- The FACT mainnet genesis block hash literal (migration.py line 62). -/
def FACT_MAINNET_GENESIS : String :=
  "79cb40f8075b0e3dc2bc468c5ce2a7acbe0afd36c6c3d3a134ea692edac7de49"

/-- The FACT testnet genesis block hash literal (migration.py line 63). -/
def FACT_TESTNET_GENESIS : String :=
  "550bbf0a444d9f92189f067dd225f5b8a5d92587ebc2e8398d143236072580af"

/-- `is_factwallet_data(directory)` (migration.py lines 38-71), with
`parse` abstracting `json.load` (`none` for a `json.JSONDecodeError`):
false when the directory is missing or has no `config` entry; reading
or decoding failures are swallowed by the
`except (json.JSONDecodeError, OSError)` clause and give false; a
decoded object is probed for `blockchain_preferred_block` (defaulting
to an empty object) and then for `hash`, and true is returned exactly
when that hash is one of the two genesis literals.  A decoded value on
which `.get` is probed but which is not an object raises
`AttributeError`, which the `except` clause does not catch. -/
def is_factwallet_data (parse : String → Option Json) (fs : Node) (directory : FPath) :
    Except PyErr Bool :=
  if !(fs.exists directory) then .ok false
  else
    let config_path := directory ++ ["config"]
    if fs.exists config_path then
      match readFile fs config_path with
      | .error _ => .ok false
      | .ok text =>
          match parse text with
          | none => .ok false
          | some config =>
              match config with
              | .obj fields =>
                  match (findA fields "blockchain_preferred_block").getD (.obj []) with
                  | .obj bf =>
                      match findA bf "hash" with
                      | some (.str h) =>
                          if h = FACT_MAINNET_GENESIS ∨ h = FACT_TESTNET_GENESIS then
                            .ok true
                          else .ok false
                      | _ => .ok false
                  | _ => .error .attributeError
              | _ => .error .attributeError
    else .ok false

/-! ## The dialog (`MigrationDialog`, lines 120-192) and
`run_migration` (lines 195-234) -/

/-- The backup path computed in `MigrationDialog.__init__` (line 128):
the source path string with `-backupByFactWallet-<when>` appended,
i.e. a sibling whose last component carries the suffix; `when` stands
for `datetime.datetime.now().strftime("%Y%m%d%H%M%S")`. -/
def backup_path (electrum_dir : FPath) (when : String) : FPath :=
  electrum_dir.dropLast ++ [lastName electrum_dir ++ "-backupByFactWallet-" ++ when]

/-- The observable outcome of `MigrationDialog.exec_()`: whether the
dialog was accepted, its `result` and `error` flags, and the filesystem
it leaves behind.  The interactive surface is abstracted to the
`consent` decision; on consent `do_migrate` (lines 165-192) runs
`perform_migration` and then accepts with `result = True` on success or
rejects with `error = True` on failure; refusal rejects directly. -/
structure DialogOutcome where
  accepted : Bool
  result : Bool
  error : Bool
  fs : Node

/-- `MigrationDialog` shown and answered with `consent`. -/
def MigrationDialog_exec (consent : Bool) (fs : Node) (electrum_dir factwallet_dir : FPath)
    (when now : String) : DialogOutcome :=
  if consent then
    match perform_migration fs electrum_dir (backup_path electrum_dir when) factwallet_dir now with
    | (true, fs1) => { accepted := true, result := true, error := false, fs := fs1 }
    | (false, fs1) => { accepted := false, result := false, error := true, fs := fs1 }
  else { accepted := false, result := false, error := false, fs := fs }

/-- `run_migration(electrum_dir, factwallet_dir)` (lines 195-234): show
the dialog; if its `error` flag is set, raise (the `except` clause
logs and re-raises); otherwise return `True` whether the user migrated
or skipped. -/
def run_migration (consent : Bool) (fs : Node) (electrum_dir factwallet_dir : FPath)
    (when now : String) : Except PyErr (Bool × Node) :=
  let d := MigrationDialog_exec consent fs electrum_dir factwallet_dir when now
  if d.error then .error (.exception "Error during wallet migration")
  else .ok (true, d.fs)

/-! ## The orchestrator (`check_for_migration`, lines 237-277) -/

/-- The fields of the `config_options` dict that `check_for_migration`
reads: `get('portable', False)` and `get('electrum_path')` (with `none`
for an absent key or a `None` value). -/
structure COpts where
  portable : Bool
  electrum_path : Option FPath

/-- The ambient process state `check_for_migration` consults:
`'ANDROID_DATA' in os.environ`, and the injected path-resolution
collaborators `user_dir()` and `old_user_dir()` (the latter may be
`None` on an unknown platform). -/
structure Env where
  android : Bool
  userDir : FPath
  oldUserDir : Option FPath

/-- The `factwallet_dir` that lines 258-263 resolve (meaningful when a
portable `electrum_path` is present). -/
def resolved_factwallet_dir (co : COpts) (env : Env) : FPath :=
  if co.portable then (co.electrum_path.getD []) else env.userDir

/-- The `electrum_dir` that lines 258-263 resolve: in portable mode the
`electrum_data` sibling of the supplied path, otherwise the platform
default old directory. -/
def resolved_electrum_dir (co : COpts) (env : Env) : Option FPath :=
  if co.portable then co.electrum_path.map (fun p => p.dropLast ++ ["electrum_data"])
  else env.oldUserDir

/-- `check_for_migration(config_options)` (lines 237-277).  Its first
statement `config_options.get('portable', False)` runs before every
skip condition, so the default `None` argument raises `AttributeError`
immediately.  Then: skip on Android; skip on a custom data directory
outside portable mode; resolve the directories (portable mode indexes
`config_options['electrum_path']`, raising `KeyError` when absent);
skip when the target exists, when the source is `None` or missing, or
when the detector says no; otherwise run the migration workflow.  The
returned flag records whether the user was prompted
(`run_migration` reached); the node is the final filesystem. -/
def check_for_migration (parse : String → Option Json) (consent : Bool) (when now : String)
    (config_options : Option COpts) (env : Env) (fs : Node) : Except PyErr (Node × Bool) :=
  match config_options with
  | none => .error .attributeError
  | some co =>
      let is_portable := co.portable
      if env.android then .ok (fs, false)
      else if co.electrum_path.isSome && !is_portable then .ok (fs, false)
      else
        match
          (if is_portable then
            match co.electrum_path with
            | none => .error (.keyError "electrum_path")
            | some p => .ok (p, some (p.dropLast ++ ["electrum_data"]))
          else .ok (env.userDir, env.oldUserDir) :
            Except PyErr (FPath × Option FPath)) with
        | .error e => .error e
        | .ok (factwallet_dir, electrum_dirOpt) =>
            if fs.exists factwallet_dir then .ok (fs, false)
            else
              match electrum_dirOpt with
              | none => .ok (fs, false)
              | some electrum_dir =>
                  if !(fs.exists electrum_dir) then .ok (fs, false)
                  else
                    match is_factwallet_data parse fs electrum_dir with
                    | .error e => .error e
                    | .ok false => .ok (fs, false)
                    | .ok true =>
                        match run_migration consent fs electrum_dir factwallet_dir when now with
                        | .error e => .error e
                        | .ok (_, fs1) => .ok (fs1, true)

/-! ## Association-list lemmas -/

theorem findA_setA_self {α : Type} (es : List (String × α)) (k : String) (v : α) :
    findA (setA es k v) k = some v := by
  induction es with
  | nil => simp [setA, findA]
  | cons e rest ih =>
      obtain ⟨a, b⟩ := e
      by_cases h : a = k
      · simp [setA, findA, h]
      · simp [setA, findA, h, ih]

theorem findA_setA_ne {α : Type} (es : List (String × α)) {k q : String} (v : α)
    (h : q ≠ k) : findA (setA es k v) q = findA es q := by
  induction es with
  | nil => simp [setA, findA, Ne.symm h]
  | cons e rest ih =>
      obtain ⟨a, b⟩ := e
      by_cases hak : a = k
      · subst hak
        simp [setA, findA, Ne.symm h]
      · simp only [setA, if_neg hak, findA]
        by_cases haq : a = q
        · simp [haq]
        · simp [haq, ih]

theorem setA_of_findA_none {α : Type} {es : List (String × α)} {k : String} (v : α)
    (h : findA es k = none) : setA es k v = es ++ [(k, v)] := by
  induction es with
  | nil => simp [setA]
  | cons e rest ih =>
      obtain ⟨a, b⟩ := e
      by_cases hak : a = k
      · simp [findA, hak] at h
      · simp only [findA, if_neg hak] at h
        simp [setA, hak, ih h]

theorem findA_eraseA_self {α : Type} (es : List (String × α)) (k : String) :
    findA (eraseA es k) k = none := by
  induction es with
  | nil => simp [eraseA, findA]
  | cons e rest ih =>
      obtain ⟨a, b⟩ := e
      by_cases hak : a = k
      · simp [eraseA, hak, ih]
      · simp [eraseA, hak, findA, ih]

theorem findA_eraseA_ne {α : Type} (es : List (String × α)) {k q : String}
    (h : q ≠ k) : findA (eraseA es k) q = findA es q := by
  induction es with
  | nil => simp [eraseA]
  | cons e rest ih =>
      obtain ⟨a, b⟩ := e
      by_cases hak : a = k
      · subst hak
        simp [eraseA, findA, Ne.symm h, ih]
      · simp only [eraseA, if_neg hak, findA]
        by_cases haq : a = q
        · simp [haq]
        · simp [haq, ih]

theorem findA_append_of_none {α : Type} {es : List (String × α)} (fs : List (String × α))
    {k : String} (h : findA es k = none) : findA (es ++ fs) k = findA fs k := by
  induction es with
  | nil => simp
  | cons e rest ih =>
      obtain ⟨a, b⟩ := e
      by_cases hak : a = k
      · simp [findA, hak] at h
      · simp only [findA, if_neg hak] at h
        simp [findA, hak, ih h]

theorem findA_eq_none_of_not_mem {α : Type} {es : List (String × α)} {k : String}
    (h : k ∉ es.map (fun e => e.1)) : findA es k = none := by
  induction es with
  | nil => simp [findA]
  | cons e rest ih =>
      obtain ⟨a, b⟩ := e
      simp only [List.map_cons, List.mem_cons] at h
      push_neg at h
      simp [findA, Ne.symm h.1, ih h.2]

theorem findA_of_mem_nodup {α : Type} {es : List (String × α)}
    (hnd : (es.map (fun e => e.1)).Nodup) {e : String × α} (hm : e ∈ es) :
    findA es e.1 = some e.2 := by
  induction es with
  | nil => cases hm
  | cons x rest ih =>
      obtain ⟨a, b⟩ := x
      simp only [List.map_cons, List.nodup_cons] at hnd
      rcases List.mem_cons.mp hm with h | h
      · subst h
        simp [findA]
      · have hne : a ≠ e.1 := by
          intro hh
          exact hnd.1 (hh ▸ List.mem_map.mpr ⟨e, h, rfl⟩)
        simp [findA, hne, ih hnd.2 h]

/-! ## Path and tree lemmas -/

theorem isDir_iff (fs : Node) (p : FPath) :
    fs.isDir p = true ↔ ∃ es, fs.lookup p = some (.dir es) := by
  unfold Node.isDir
  cases h : fs.lookup p with
  | none => simp
  | some n => cases n <;> simp

theorem lookup_mkPath (p : FPath) (m : Node) : (mkPath p m).lookup p = some m := by
  induction p with
  | nil => simp [mkPath, Node.lookup]
  | cons k ks ih => simp [mkPath, Node.lookup, findA, ih]

theorem lookup_mkPath_disjoint {p q : FPath} (m : Node)
    (h1 : ¬ (p <+: q)) (h2 : ¬ (q <+: p)) : (mkPath p m).lookup q = none := by
  induction p generalizing q with
  | nil => exact absurd (List.nil_prefix) h1
  | cons k ks ih =>
      cases q with
      | nil => exact absurd (List.nil_prefix) h2
      | cons b bs =>
          by_cases hkb : k = b
          · subst hkb
            simp only [List.cons_prefix_cons, true_and] at h1 h2
            simp [mkPath, Node.lookup, findA, ih h1 h2]
          · simp [mkPath, Node.lookup, findA, hkb]

theorem clearFor_of_lookup_isSome {fs : Node} {p : FPath}
    (h : (fs.lookup p).isSome) : clearFor fs p = true := by
  induction p generalizing fs with
  | nil => simp [clearFor]
  | cons k ks ih =>
      cases fs with
      | file c => simp [Node.lookup] at h
      | sock => simp [Node.lookup] at h
      | dir es =>
          simp only [Node.lookup] at h
          cases hf : findA es k with
          | none => rw [hf] at h; simp at h
          | some c =>
              rw [hf] at h
              simp [clearFor, hf, ih h]

theorem clearFor_of_isDir_dropLast {fs : Node} {p : FPath}
    (hp : p ≠ []) (h : fs.isDir p.dropLast = true) : clearFor fs p = true := by
  induction p generalizing fs with
  | nil => exact absurd rfl hp
  | cons k ks ih =>
      cases ks with
      | nil =>
          obtain ⟨es, hes⟩ := (isDir_iff fs _).mp h
          simp only [List.dropLast_single, Node.lookup] at hes
          obtain rfl : fs = .dir es := by injection hes
          cases hf : findA es k with
          | none => simp [clearFor, hf]
          | some c => simp [clearFor, hf]
      | cons b bs =>
          obtain ⟨es, hes⟩ := (isDir_iff fs _).mp h
          simp only [List.dropLast_cons₂, Node.lookup] at hes
          cases fs with
          | file c => simp [Node.lookup] at hes
          | sock => simp [Node.lookup] at hes
          | dir es0 =>
              simp only [Node.lookup] at hes
              cases hf : findA es0 k with
              | none => rw [hf] at hes; simp at hes
              | some c =>
                  rw [hf] at hes
                  have hc : c.isDir (b :: bs).dropLast = true :=
                    (isDir_iff c _).mpr ⟨es, hes⟩
                  simp [clearFor, hf, ih (by simp) hc]

theorem lookup_insertAt_self {fs : Node} {p : FPath} (m : Node)
    (h : clearFor fs p = true) : (fs.insertAt p m).lookup p = some m := by
  induction p generalizing fs with
  | nil => simp [Node.insertAt, Node.lookup]
  | cons k ks ih =>
      cases fs with
      | file c => simp [clearFor] at h
      | sock => simp [clearFor] at h
      | dir es =>
          cases hf : findA es k with
          | some c =>
              simp only [clearFor, hf] at h
              simp [Node.insertAt, hf, Node.lookup, findA_setA_self, ih h]
          | none =>
              simp [Node.insertAt, hf, Node.lookup, findA_setA_self, lookup_mkPath]

theorem lookup_insertAt_disjoint {fs : Node} {p q : FPath} (m : Node)
    (h1 : ¬ (p <+: q)) (h2 : ¬ (q <+: p)) :
    (fs.insertAt p m).lookup q = fs.lookup q := by
  induction q generalizing p fs with
  | nil => exact absurd (List.nil_prefix) h2
  | cons b bs ih =>
      cases p with
      | nil => exact absurd (List.nil_prefix) h1
      | cons a as =>
          cases fs with
          | file c => simp [Node.insertAt, Node.lookup]
          | sock => simp [Node.insertAt, Node.lookup]
          | dir es =>
              by_cases hab : a = b
              · subst hab
                simp only [List.cons_prefix_cons, true_and] at h1 h2
                cases hf : findA es a with
                | some c =>
                    simp [Node.insertAt, hf, Node.lookup, findA_setA_self, ih h1 h2]
                | none =>
                    simp [Node.insertAt, hf, Node.lookup, findA_setA_self,
                      lookup_mkPath_disjoint m h1 h2]
              · cases hf : findA es a with
                | some c =>
                    simp [Node.insertAt, hf, Node.lookup,
                      findA_setA_ne _ _ (Ne.symm hab)]
                | none =>
                    simp [Node.insertAt, hf, Node.lookup,
                      findA_setA_ne _ _ (Ne.symm hab)]

theorem lookup_isSome_insertAt {fs : Node} {p q : FPath} (m : Node)
    (h : ¬ (p <+: q)) (hq : (fs.lookup q).isSome) :
    ((fs.insertAt p m).lookup q).isSome := by
  induction q generalizing p fs with
  | nil =>
      cases p with
      | nil => exact absurd (List.nil_prefix) h
      | cons a as => simp [Node.lookup]
  | cons b bs ih =>
      cases fs with
      | file c => simp [Node.lookup] at hq
      | sock => simp [Node.lookup] at hq
      | dir es =>
          simp only [Node.lookup] at hq
          cases hf : findA es b with
          | none => rw [hf] at hq; simp at hq
          | some c =>
              rw [hf] at hq
              cases p with
              | nil => exact absurd (List.nil_prefix) h
              | cons a as =>
                  by_cases hab : a = b
                  · subst hab
                    simp only [List.cons_prefix_cons, true_and] at h
                    simp [Node.insertAt, hf, Node.lookup, findA_setA_self, ih h hq]
                  · cases hg : findA es a with
                    | some d =>
                        simp [Node.insertAt, hg, Node.lookup,
                          findA_setA_ne _ _ (Ne.symm hab), hf, hq]
                    | none =>
                        simp [Node.insertAt, hg, Node.lookup,
                          findA_setA_ne _ _ (Ne.symm hab), hf, hq]

theorem isDir_insertAt {fs : Node} {p q : FPath} (m : Node)
    (h : ¬ (p <+: q)) (hq : fs.isDir q = true) :
    (fs.insertAt p m).isDir q = true := by
  induction q generalizing p fs with
  | nil =>
      obtain ⟨es1, hes1⟩ := (isDir_iff fs _).mp hq
      simp only [Node.lookup] at hes1
      obtain rfl : fs = .dir es1 := by injection hes1
      cases p with
      | nil => exact absurd (List.nil_prefix) h
      | cons a as =>
          cases hg : findA es1 a with
          | some c =>
              exact (isDir_iff _ _).mpr ⟨setA es1 a (c.insertAt as m),
                by simp [Node.insertAt, hg, Node.lookup]⟩
          | none =>
              exact (isDir_iff _ _).mpr ⟨setA es1 a (mkPath as m),
                by simp [Node.insertAt, hg, Node.lookup]⟩
  | cons b bs ih =>
      obtain ⟨es1, hes1⟩ := (isDir_iff fs _).mp hq
      cases fs with
      | file c => simp [Node.lookup] at hes1
      | sock => simp [Node.lookup] at hes1
      | dir es =>
          simp only [Node.lookup] at hes1
          cases hf : findA es b with
          | none => rw [hf] at hes1; simp at hes1
          | some c =>
              rw [hf] at hes1
              have hes1 : c.lookup bs = some (.dir es1) := hes1
              cases p with
              | nil => exact absurd (List.nil_prefix) h
              | cons a as =>
                  by_cases hab : a = b
                  · subst hab
                    simp only [List.cons_prefix_cons, true_and] at h
                    have hc : c.isDir bs = true := (isDir_iff c _).mpr ⟨es1, hes1⟩
                    have := ih (p := as) h hc
                    obtain ⟨es2, hes2⟩ := (isDir_iff _ _).mp this
                    refine (isDir_iff _ _).mpr ⟨es2, ?_⟩
                    simp [Node.insertAt, hf, Node.lookup, findA_setA_self, hes2]
                  · refine (isDir_iff _ _).mpr ⟨es1, ?_⟩
                    cases hg : findA es a with
                    | some d =>
                        simp [Node.insertAt, hg, Node.lookup,
                          findA_setA_ne _ _ (Ne.symm hab), hf, hes1]
                    | none =>
                        simp [Node.insertAt, hg, Node.lookup,
                          findA_setA_ne _ _ (Ne.symm hab), hf, hes1]

theorem lookup_eraseAt_self {fs : Node} {p : FPath} (hp : p ≠ []) :
    (fs.eraseAt p).lookup p = none := by
  induction p generalizing fs with
  | nil => exact absurd rfl hp
  | cons a as ih =>
      cases as with
      | nil =>
          cases fs with
          | file c => simp [Node.eraseAt, Node.lookup]
          | sock => simp [Node.eraseAt, Node.lookup]
          | dir es => simp [Node.eraseAt, Node.lookup, findA_eraseA_self]
      | cons b bs =>
          cases fs with
          | file c => simp [Node.eraseAt, Node.lookup]
          | sock => simp [Node.eraseAt, Node.lookup]
          | dir es =>
              cases hf : findA es a with
              | some c =>
                  simp [Node.eraseAt, hf, Node.lookup, findA_setA_self,
                    ih (by simp)]
              | none => simp [Node.eraseAt, hf, Node.lookup]

theorem lookup_eraseAt_disjoint {fs : Node} {p q : FPath}
    (h1 : ¬ (p <+: q)) (h2 : ¬ (q <+: p)) :
    (fs.eraseAt p).lookup q = fs.lookup q := by
  induction q generalizing p fs with
  | nil => exact absurd (List.nil_prefix) h2
  | cons b bs ih =>
      cases p with
      | nil => exact absurd (List.nil_prefix) h1
      | cons a as =>
          cases fs with
          | file c => cases as <;> simp [Node.eraseAt, Node.lookup]
          | sock => cases as <;> simp [Node.eraseAt, Node.lookup]
          | dir es =>
              by_cases hab : a = b
              · subst hab
                simp only [List.cons_prefix_cons, true_and] at h1 h2
                cases as with
                | nil => exact absurd (List.nil_prefix) h1
                | cons a2 as2 =>
                    cases hf : findA es a with
                    | some c =>
                        simp [Node.eraseAt, hf, Node.lookup, findA_setA_self,
                          ih h1 h2]
                    | none => simp [Node.eraseAt, hf]
              · cases as with
                | nil =>
                    simp [Node.eraseAt, Node.lookup,
                      findA_eraseA_ne _ (Ne.symm hab)]
                | cons a2 as2 =>
                    cases hf : findA es a with
                    | some c =>
                        simp [Node.eraseAt, hf, Node.lookup,
                          findA_setA_ne _ _ (Ne.symm hab)]
                    | none => simp [Node.eraseAt, hf]

theorem isDir_eraseAt {fs : Node} {p q : FPath}
    (h : ¬ (p <+: q)) (hq : fs.isDir q = true) :
    (fs.eraseAt p).isDir q = true := by
  induction q generalizing p fs with
  | nil =>
      obtain ⟨es1, hes1⟩ := (isDir_iff fs _).mp hq
      simp only [Node.lookup] at hes1
      obtain rfl : fs = .dir es1 := by injection hes1
      cases p with
      | nil => exact absurd (List.nil_prefix) h
      | cons a as =>
          cases as with
          | nil => exact (isDir_iff _ _).mpr ⟨eraseA es1 a, by simp [Node.eraseAt, Node.lookup]⟩
          | cons a2 as2 =>
              cases hf : findA es1 a with
              | some c =>
                  exact (isDir_iff _ _).mpr ⟨setA es1 a (c.eraseAt (a2 :: as2)),
                    by simp [Node.eraseAt, hf, Node.lookup]⟩
              | none =>
                  exact (isDir_iff _ _).mpr ⟨es1, by simp [Node.eraseAt, hf, Node.lookup]⟩
  | cons b bs ih =>
      obtain ⟨es1, hes1⟩ := (isDir_iff fs _).mp hq
      cases fs with
      | file c => simp [Node.lookup] at hes1
      | sock => simp [Node.lookup] at hes1
      | dir es =>
          simp only [Node.lookup] at hes1
          cases hf : findA es b with
          | none => rw [hf] at hes1; simp at hes1
          | some c =>
              rw [hf] at hes1
              have hes1 : c.lookup bs = some (.dir es1) := hes1
              cases p with
              | nil => exact absurd (List.nil_prefix) h
              | cons a as =>
                  by_cases hab : a = b
                  · subst hab
                    simp only [List.cons_prefix_cons, true_and] at h
                    cases as with
                    | nil => exact absurd (List.nil_prefix) h
                    | cons a2 as2 =>
                        have hc : c.isDir bs = true := (isDir_iff c _).mpr ⟨es1, hes1⟩
                        have hrec := ih (p := a2 :: as2) h hc
                        obtain ⟨es2, hes2⟩ := (isDir_iff _ _).mp hrec
                        refine (isDir_iff _ _).mpr ⟨es2, ?_⟩
                        simp [Node.eraseAt, hf, Node.lookup, findA_setA_self, hes2]
                  · refine (isDir_iff _ _).mpr ⟨es1, ?_⟩
                    cases as with
                    | nil =>
                        simp [Node.eraseAt, Node.lookup,
                          findA_eraseA_ne _ (Ne.symm hab), hf, hes1]
                    | cons a2 as2 =>
                        cases hg : findA es a with
                        | some d =>
                            simp [Node.eraseAt, hg, Node.lookup,
                              findA_setA_ne _ _ (Ne.symm hab), hf, hes1]
                        | none => simp [Node.eraseAt, hg, Node.lookup, hf, hes1]

theorem clearFor_eraseAt {fs : Node} {q : FPath} (p : FPath)
    (hc : clearFor fs q = true) : clearFor (fs.eraseAt p) q = true := by
  induction q generalizing p fs with
  | nil => simp [clearFor]
  | cons b bs ih =>
      cases fs with
      | file c => simp [clearFor] at hc
      | sock => simp [clearFor] at hc
      | dir es =>
          cases p with
          | nil => simpa [Node.eraseAt] using hc
          | cons a as =>
              cases as with
              | nil =>
                  by_cases hab : a = b
                  · subst hab
                    simp [Node.eraseAt, clearFor, findA_eraseA_self]
                  · simp only [Node.eraseAt, clearFor,
                      findA_eraseA_ne _ (Ne.symm hab)]
                    simpa [clearFor] using hc
              | cons a2 as2 =>
                  cases hg : findA es a with
                  | none => simpa [Node.eraseAt, hg] using hc
                  | some c =>
                      by_cases hab : a = b
                      · subst hab
                        simp only [clearFor, hg] at hc
                        simp [Node.eraseAt, hg, clearFor, findA_setA_self, ih _ hc]
                      · simp only [Node.eraseAt, hg, clearFor,
                          findA_setA_ne _ _ (Ne.symm hab)]
                        simpa [clearFor] using hc

theorem clearFor_mkPath {p q : FPath} (m : Node) (h : ¬ (p <+: q)) :
    clearFor (mkPath p m) q = true := by
  induction p generalizing q with
  | nil => exact absurd (List.nil_prefix) h
  | cons a as ih =>
      cases q with
      | nil => simp [clearFor]
      | cons b bs =>
          by_cases hab : a = b
          · subst hab
            simp only [List.cons_prefix_cons, true_and] at h
            simp [mkPath, clearFor, findA, ih h]
          · simp [mkPath, clearFor, findA, hab]

theorem clearFor_insertAt {fs : Node} {p q : FPath} (m : Node)
    (h : ¬ (p <+: q)) (hc : clearFor fs q = true) :
    clearFor (fs.insertAt p m) q = true := by
  induction q generalizing p fs with
  | nil => simp [clearFor]
  | cons b bs ih =>
      cases fs with
      | file c => simp [clearFor] at hc
      | sock => simp [clearFor] at hc
      | dir es =>
          cases p with
          | nil => exact absurd (List.nil_prefix) h
          | cons a as =>
              by_cases hab : a = b
              · subst hab
                simp only [List.cons_prefix_cons, true_and] at h
                cases hg : findA es a with
                | some c =>
                    simp only [clearFor, hg] at hc
                    simp [Node.insertAt, hg, clearFor, findA_setA_self, ih h hc]
                | none =>
                    simp [Node.insertAt, hg, clearFor, findA_setA_self,
                      clearFor_mkPath m h]
              · cases hg : findA es a with
                | some c =>
                    simp only [Node.insertAt, hg, clearFor,
                      findA_setA_ne _ _ (Ne.symm hab)]
                    simpa [clearFor] using hc
                | none =>
                    simp only [Node.insertAt, hg, clearFor,
                      findA_setA_ne _ _ (Ne.symm hab)]
                    simpa [clearFor] using hc

theorem lookup_append (fs : Node) (t r : FPath) :
    fs.lookup (t ++ r) = (fs.lookup t).bind (fun n => n.lookup r) := by
  induction t generalizing fs with
  | nil => simp [Node.lookup]
  | cons k ts ih =>
      cases fs with
      | file c => simp [Node.lookup]
      | sock => simp [Node.lookup]
      | dir es =>
          cases hf : findA es k with
          | some c => simp [Node.lookup, hf, ih]
          | none => simp [Node.lookup, hf]

theorem lookup_concat_of_dir {fs : Node} {t : FPath} {es : List (String × Node)}
    (h : fs.lookup t = some (.dir es)) (a : String) :
    fs.lookup (t ++ [a]) = findA es a := by
  rw [lookup_append, h]
  cases hf : findA es a with
  | some c => simp [Node.lookup, hf]
  | none => simp [Node.lookup, hf]

theorem lookup_insertAt_concat {fs : Node} {t : FPath} {es : List (String × Node)}
    (h : fs.lookup t = some (.dir es)) (a : String) (m : Node) :
    (fs.insertAt (t ++ [a]) m).lookup t = some (.dir (setA es a m)) := by
  induction t generalizing fs with
  | nil =>
      simp only [Node.lookup] at h
      obtain rfl : fs = .dir es := by injection h
      cases hf : findA es a with
      | some c => simp [Node.insertAt, hf, Node.lookup]
      | none => simp [Node.insertAt, hf, Node.lookup, mkPath]
  | cons k ts ih =>
      cases fs with
      | file c => simp [Node.lookup] at h
      | sock => simp [Node.lookup] at h
      | dir es0 =>
          simp only [Node.lookup] at h
          cases hf : findA es0 k with
          | none => rw [hf] at h; simp at h
          | some c =>
              rw [hf] at h
              have h : c.lookup ts = some (.dir es) := h
              simp [Node.insertAt, hf, Node.lookup, findA_setA_self, ih h]

/-! ## `ignore_sockets` and copy lemmas -/

theorem ignore_sockets_aux (statOf : String → Option Nat) :
    ∀ (files acc : List String) (a : String),
    (a ∈ List.foldl
      (fun socket_files f =>
        match statOf f with
        | some m => if S_ISSOCK m then socket_files ++ [f] else socket_files
        | none => socket_files)
      acc files)
    ↔ a ∈ acc ∨ (a ∈ files ∧ ∃ m, statOf a = some m ∧ S_ISSOCK m = true) := by
  intro files
  induction files with
  | nil => intro acc a; simp
  | cons f rest ih =>
      intro acc a
      simp only [List.foldl_cons]
      rw [ih]
      cases hst : statOf f with
      | none =>
          simp only [hst]
          constructor
          · rintro (h | h)
            · exact Or.inl h
            · exact Or.inr ⟨List.mem_cons_of_mem _ h.1, h.2⟩
          · rintro (h | ⟨hm, hp⟩)
            · exact Or.inl h
            · rcases List.mem_cons.mp hm with rfl | hr
              · obtain ⟨m, hm2, _⟩ := hp
                rw [hst] at hm2
                cases hm2
              · exact Or.inr ⟨hr, hp⟩
      | some m =>
          by_cases hs : S_ISSOCK m = true
          · simp only [hst, hs, if_true]
            constructor
            · rintro (h | h)
              · rcases List.mem_append.mp h with h2 | h2
                · exact Or.inl h2
                · obtain rfl : a = f := by simpa using h2
                  exact Or.inr ⟨List.mem_cons_self _ _, m, hst, hs⟩
              · exact Or.inr ⟨List.mem_cons_of_mem _ h.1, h.2⟩
            · rintro (h | ⟨hm, hp⟩)
              · exact Or.inl (List.mem_append.mpr (Or.inl h))
              · rcases List.mem_cons.mp hm with rfl | hr
                · exact Or.inl (List.mem_append.mpr (Or.inr (by simp)))
                · exact Or.inr ⟨hr, hp⟩
          · simp only [hst, hs, if_false]
            constructor
            · rintro (h | h)
              · exact Or.inl h
              · exact Or.inr ⟨List.mem_cons_of_mem _ h.1, h.2⟩
            · rintro (h | ⟨hm, hp⟩)
              · exact Or.inl h
              · rcases List.mem_cons.mp hm with rfl | hr
                · obtain ⟨m2, hm2, hs2⟩ := hp
                  rw [hst] at hm2
                  obtain rfl : m = m2 := by injection hm2
                  exact absurd hs2 hs
                · exact Or.inr ⟨hr, hp⟩

theorem mem_ignore_sockets (statOf : String → Option Nat) (files : List String) (a : String) :
    a ∈ ignore_sockets statOf files
    ↔ a ∈ files ∧ ∃ m, statOf a = some m ∧ S_ISSOCK m = true := by
  unfold ignore_sockets
  rw [ignore_sockets_aux]
  simp

/-- The node is not a directory (a copyable leaf: regular file or socket). -/
def isLeaf : Node → Bool
  | .dir _ => false
  | _ => true

/-- The regular-file entries of a directory entry list, in order (what a
socket-excluding copy of a flat directory keeps). -/
def filterFiles (es : List (String × Node)) : List (String × Node) :=
  es.filter (fun e =>
    match e.2 with
    | .file _ => true
    | _ => false)

theorem ignored_iff_sock {es : List (String × Node)}
    (hnd : (es.map (fun e => e.1)).Nodup) {e : String × Node} (he : e ∈ es) :
    (e.1 ∈ ignore_sockets (statOfEntries es) (es.map (fun x => x.1))) ↔ e.2 = Node.sock := by
  rw [mem_ignore_sockets]
  constructor
  · rintro ⟨_, m, hm, hs⟩
    unfold statOfEntries at hm
    rw [findA_of_mem_nodup hnd he] at hm
    cases h2 : e.2 with
    | file c =>
        rw [h2] at hm
        obtain rfl : modeFile = m := by injection hm
        exact absurd hs (by decide)
    | sock => rfl
    | dir es2 =>
        rw [h2] at hm
        obtain rfl : modeDir = m := by injection hm
        exact absurd hs (by decide)
  · intro h2
    refine ⟨List.mem_map.mpr ⟨e, he, rfl⟩, modeSock, ?_, by decide⟩
    unfold statOfEntries
    rw [findA_of_mem_nodup hnd he, h2]

theorem copyEntries_flat {rem : List (String × Node)} {ignored : List String}
    {t : FPath} {fs : Node} {acc : List (String × Node)}
    (hleaf : ∀ e ∈ rem, isLeaf e.2 = true)
    (hig : ∀ e ∈ rem, (e.1 ∈ ignored ↔ e.2 = Node.sock))
    (hfs : fs.lookup t = some (.dir acc))
    (hfresh : ∀ e ∈ rem, findA acc e.1 = none)
    (hnd : (rem.map (fun e => e.1)).Nodup) :
    (copyEntries rem ignored fs t).2 = []
    ∧ ((copyEntries rem ignored fs t).1).lookup t = some (.dir (acc ++ filterFiles rem))
    ∧ ∀ q, ¬ (t <+: q) → ¬ (q <+: t) →
        ((copyEntries rem ignored fs t).1).lookup q = fs.lookup q := by
  induction rem generalizing fs acc with
  | nil =>
      rw [copyEntries]
      simpa [filterFiles] using hfs
  | cons e rest ih =>
      obtain ⟨name, child⟩ := e
      by_cases hmem : name ∈ ignored
      · have hsock : child = Node.sock := (hig _ (List.mem_cons_self _ _)).mp hmem
        subst hsock
        rw [copyEntries]
        simp only [if_pos hmem]
        have := ih (fun e he => hleaf e (List.mem_cons_of_mem _ he))
          (fun e he => hig e (List.mem_cons_of_mem _ he)) hfs
          (fun e he => hfresh e (List.mem_cons_of_mem _ he))
          (by simpa using hnd.of_cons)
        simpa [filterFiles] using this
      · have hnsock : child ≠ Node.sock := fun hh =>
          hmem ((hig _ (List.mem_cons_self _ _)).mpr hh)
        cases hchild : child with
        | dir es2 =>
            have := hleaf _ (List.mem_cons_self _ _)
            rw [hchild] at this
            simp [isLeaf] at this
        | sock => exact absurd hchild hnsock
        | file c =>
            subst hchild
            have hlook : fs.lookup (t ++ [name]) = none := by
              rw [lookup_concat_of_dir hfs]
              exact hfresh _ (List.mem_cons_self _ _)
            have hname_nin : name ∉ rest.map (fun e => e.1) := by
              have := hnd
              simp only [List.map_cons, List.nodup_cons] at this
              exact this.1
            have hfs1 : (fs.insertAt (t ++ [name]) (.file c)).lookup t
                = some (.dir (acc ++ [(name, .file c)])) := by
              rw [lookup_insertAt_concat hfs name (.file c),
                setA_of_findA_none _ (hfresh _ (List.mem_cons_self _ _))]
            have hfresh1 : ∀ e ∈ rest, findA (acc ++ [(name, Node.file c)]) e.1 = none := by
              intro e he
              rw [findA_append_of_none _ (hfresh e (List.mem_cons_of_mem _ he))]
              have : e.1 ≠ name := fun hh =>
                hname_nin (hh ▸ List.mem_map.mpr ⟨e, he, rfl⟩)
              simp [findA, Ne.symm this]
            have hrec := ih (fun e he => hleaf e (List.mem_cons_of_mem _ he))
              (fun e he => hig e (List.mem_cons_of_mem _ he)) hfs1 hfresh1
              (by simpa using hnd.of_cons)
            have hnp1 : ¬ ((t ++ [name]) <+: t) := by
              intro hh
              have := hh.length_le
              simp at this
            have houter : ∀ q, ¬ (t <+: q) → ¬ (q <+: t) →
                (fs.insertAt (t ++ [name]) (.file c)).lookup q = fs.lookup q := by
              intro q hq1 hq2
              refine lookup_insertAt_disjoint _ ?_ ?_
              · intro hh
                exact hq1 ((List.prefix_append t [name]).trans hh)
              · intro hh
                rcases List.prefix_concat_iff.mp hh with hh2 | hh2
                · exact hq1 (hh2 ▸ List.prefix_append t [name])
                · exact hq2 hh2
            rw [copyEntries]
            simp only [if_neg hmem, hlook]
            refine ⟨?_, ?_, ?_⟩
            · simpa using hrec.1
            · simpa [filterFiles, List.append_assoc] using hrec.2.1
            · intro q hq1 hq2
              have := hrec.2.2 q hq1 hq2
              simpa [houter q hq1 hq2] using this

theorem isDir_of_prefix_isSome {fs : Node} {p q : FPath} (hpq : p <+: q)
    (hne : p ≠ q) (h : (fs.lookup q).isSome) : fs.isDir p = true := by
  obtain ⟨r, rfl⟩ := hpq
  cases hr : r with
  | nil =>
      simp at hne
      exact absurd hr hne
  | cons x xs =>
      subst hr
      rw [lookup_append] at h
      cases hl : fs.lookup p with
      | none => rw [hl] at h; simp at h
      | some n =>
          rw [hl] at h
          have h2 : (n.lookup (x :: xs)).isSome := h
          cases n with
          | dir es => exact (isDir_iff fs p).mpr ⟨es, hl⟩
          | file c => simp [Node.lookup] at h2
          | sock => simp [Node.lookup] at h2

theorem lookup_isSome_insertAt_of_not_dir {fs : Node} {p q : FPath} (m : Node)
    (hp : fs.isDir p = false) (hq : (fs.lookup q).isSome) :
    ((fs.insertAt p m).lookup q).isSome := by
  by_cases hpq : p <+: q
  · by_cases hpe : p = q
    · subst hpe
      have hc : clearFor fs p = true := clearFor_of_lookup_isSome hq
      simp [lookup_insertAt_self m hc]
    · exact absurd (isDir_of_prefix_isSome hpq hpe hq) (by simp [hp])
  · exact lookup_isSome_insertAt m hpq hq

mutual

theorem copyTree_keeps (sn fs : Node) (dst : FPath) {q : FPath}
    (hq : (fs.lookup q).isSome) :
    (((copyTree sn fs dst).1).lookup q).isSome := by
  cases sn with
  | file c => rw [copyTree.eq_def]; simpa using hq
  | sock => rw [copyTree.eq_def]; simpa using hq
  | dir es =>
      rw [copyTree.eq_def]
      cases hl : fs.lookup dst with
      | some n =>
          cases n with
          | dir es2 =>
              simp only [hl]
              exact copyEntries_keeps es _ fs dst hq
          | file c2 => simp only [hl]; exact hq
          | sock => simp only [hl]; exact hq
      | none =>
          by_cases hc : clearFor fs dst
          · simp only [hl, hc, if_true]
            have hnd : fs.isDir dst = false := by unfold Node.isDir; rw [hl]
            exact copyEntries_keeps es _ _ dst
              (lookup_isSome_insertAt_of_not_dir _ hnd hq)
          · simp only [hl, hc, if_false]
            exact hq
termination_by sizeOf sn

theorem copyEntries_keeps (es : List (String × Node)) (ignored : List String)
    (fs : Node) (dst : FPath) {q : FPath}
    (hq : (fs.lookup q).isSome) :
    (((copyEntries es ignored fs dst).1).lookup q).isSome := by
  cases es with
  | nil => rw [copyEntries.eq_def]; simpa using hq
  | cons e rest =>
      obtain ⟨name, child⟩ := e
      by_cases hm : name ∈ ignored
      · rw [copyEntries.eq_def]
        simp only [if_pos hm]
        exact copyEntries_keeps rest ignored fs dst hq
      · rw [copyEntries.eq_def]
        simp only [if_neg hm]
        cases child with
        | dir es2 =>
            have hstep := copyTree_keeps (.dir es2) fs (dst ++ [name]) hq
            have hrec := copyEntries_keeps rest ignored
              (copyTree (.dir es2) fs (dst ++ [name])).1 dst hstep
            rcases hres : copyEntries rest ignored
              (copyTree (.dir es2) fs (dst ++ [name])).1 dst with ⟨fs2, errs2⟩
            rw [hres] at hrec
            simpa [hres] using hrec
        | file c =>
            cases hl : fs.lookup (dst ++ [name]) with
            | some n2 =>
                cases n2 with
                | dir es3 =>
                    have hrec := copyEntries_keeps rest ignored fs dst hq
                    rcases hres : copyEntries rest ignored fs dst with ⟨fs2, errs2⟩
                    rw [hres] at hrec
                    simpa [hl, hres] using hrec
                | sock =>
                    have hrec := copyEntries_keeps rest ignored fs dst hq
                    rcases hres : copyEntries rest ignored fs dst with ⟨fs2, errs2⟩
                    rw [hres] at hrec
                    simpa [hl, hres] using hrec
                | file c2 =>
                    have hnd : fs.isDir (dst ++ [name]) = false := by
                      unfold Node.isDir; rw [hl]
                    have hins := lookup_isSome_insertAt_of_not_dir
                      (.file c) hnd hq
                    have hrec := copyEntries_keeps rest ignored
                      (fs.insertAt (dst ++ [name]) (.file c)) dst hins
                    rcases hres : copyEntries rest ignored
                      (fs.insertAt (dst ++ [name]) (.file c)) dst with ⟨fs2, errs2⟩
                    rw [hres] at hrec
                    simpa [hl, hres] using hrec
            | none =>
                have hnd : fs.isDir (dst ++ [name]) = false := by
                  unfold Node.isDir; rw [hl]
                have hins := lookup_isSome_insertAt_of_not_dir
                  (.file c) hnd hq
                have hrec := copyEntries_keeps rest ignored
                  (fs.insertAt (dst ++ [name]) (.file c)) dst hins
                rcases hres : copyEntries rest ignored
                  (fs.insertAt (dst ++ [name]) (.file c)) dst with ⟨fs2, errs2⟩
                rw [hres] at hrec
                simpa [hl, hres] using hrec
        | sock =>
            have hrec := copyEntries_keeps rest ignored fs dst hq
            rcases hres : copyEntries rest ignored fs dst with ⟨fs2, errs2⟩
            rw [hres] at hrec
            simpa [hres] using hrec
termination_by sizeOf es
decreasing_by
  all_goals simp_wf
  all_goals omega

end

theorem perform_migration_success_shape
    {fs : Node} {src bkp tgt : FPath} (now : String) {entries : List (String × Node)}
    (hsrc : fs.lookup src = some (.dir entries))
    (hleaf : ∀ e ∈ entries, isLeaf e.2 = true)
    (hnd : (entries.map (fun e => e.1)).Nodup)
    (hmark : markerName ∉ entries.map (fun e => e.1))
    (hsne : src ≠ []) (hbne : bkp ≠ [])
    (hb : fs.lookup bkp = none) (hbp : fs.isDir bkp.dropLast = true)
    (ht : fs.lookup tgt = none) (htc : clearFor fs tgt = true)
    (h1 : ¬ (src <+: bkp)) (h2 : ¬ (bkp <+: src)) (h3 : ¬ (src <+: tgt))
    (h4 : ¬ (tgt <+: src)) (h5 : ¬ (bkp <+: tgt)) (h6 : ¬ (tgt <+: bkp)) :
    ∃ fsf, perform_migration fs src bkp tgt now = (true, fsf)
      ∧ fsf.lookup bkp = some (.dir entries)
      ∧ fsf.lookup tgt = some (.dir (filterFiles entries ++
          [(markerName, .file (markerContent (renderPath src) (renderPath bkp)
              (renderPath tgt) now))]))
      ∧ fsf.lookup src = none := by
  have hdb : fs.isDir bkp = false := by unfold Node.isDir; rw [hb]
  have hsp : src.isPrefixOf bkp = false := by
    cases hh : src.isPrefixOf bkp with
    | false => rfl
    | true => exact absurd (List.isPrefixOf_iff_prefix.mp hh) h1
  have hnpd : ¬ (src <+: bkp.dropLast) := fun hh =>
    h1 (hh.trans (List.dropLast_prefix bkp))
  have hbd2 : (fs.eraseAt src).isDir bkp.dropLast = true := isDir_eraseAt hnpd hbp
  have hmove : sh_move fs src bkp = .ok ((fs.eraseAt src).insertAt bkp (.dir entries)) := by
    unfold sh_move
    simp only [hdb, Bool.false_and, Bool.false_eq_true, if_false, hsrc, hb, hsp, hbd2,
      if_true]
  have hclrb : clearFor (fs.eraseAt src) bkp = true :=
    clearFor_of_isDir_dropLast hbne hbd2
  set fs1 := (fs.eraseAt src).insertAt bkp (.dir entries) with hfs1
  have f1b : fs1.lookup bkp = some (.dir entries) := lookup_insertAt_self _ hclrb
  have f1s : fs1.lookup src = none := by
    rw [hfs1, lookup_insertAt_disjoint _ h2 h1, lookup_eraseAt_self hsne]
  have f1t : fs1.lookup tgt = none := by
    rw [hfs1, lookup_insertAt_disjoint _ h5 h6, lookup_eraseAt_disjoint h3 h4, ht]
  have hclrt1 : clearFor fs1 tgt = true :=
    clearFor_insertAt _ h5 (clearFor_eraseAt src htc)
  have hmk : make_dir fs1 tgt = fs1.insertAt tgt (.dir []) := by
    unfold make_dir Node.exists
    rw [f1t]
    simp
  set fs2 := fs1.insertAt tgt (.dir []) with hfs2
  have f2t : fs2.lookup tgt = some (.dir []) := lookup_insertAt_self _ hclrt1
  have f2b : fs2.lookup bkp = some (.dir entries) := by
    rw [hfs2, lookup_insertAt_disjoint _ h6 h5, f1b]
  have f2s : fs2.lookup src = none := by
    rw [hfs2, lookup_insertAt_disjoint _ h4 h3, f1s]
  have hig : ∀ e ∈ entries,
      (e.1 ∈ ignore_sockets (statOfEntries entries) (entries.map (fun x => x.1))
        ↔ e.2 = Node.sock) :=
    fun e he => ignored_iff_sock hnd he
  have hflat := copyEntries_flat
    hleaf hig f2t (fun e _ => by simp [findA]) hnd
  rcases hres : copyEntries entries
      (ignore_sockets (statOfEntries entries) (entries.map (fun x => x.1))) fs2 tgt
    with ⟨fs3, errs3⟩
  rw [hres] at hflat
  obtain ⟨herrs, f3t0, f3keep⟩ := hflat
  simp only at herrs f3t0
  subst herrs
  have f3t : fs3.lookup tgt = some (.dir (filterFiles entries)) := by simpa using f3t0
  have hpm1 : ¬ ((tgt ++ [markerName]) <+: bkp) := fun hh =>
    h6 ((List.prefix_append tgt [markerName]).trans hh)
  have hpm2 : ¬ (bkp <+: (tgt ++ [markerName])) := by
    intro hh
    rcases List.prefix_concat_iff.mp hh with hh2 | hh2
    · exact h6 (hh2 ▸ List.prefix_append tgt [markerName])
    · exact h5 hh2
  have hpm3 : ¬ ((tgt ++ [markerName]) <+: src) := fun hh =>
    h4 ((List.prefix_append tgt [markerName]).trans hh)
  have hpm4 : ¬ (src <+: (tgt ++ [markerName]))  := by
    intro hh
    rcases List.prefix_concat_iff.mp hh with hh2 | hh2
    · exact h4 (hh2 ▸ List.prefix_append tgt [markerName])
    · exact h3 hh2
  have f3b : fs3.lookup bkp = some (.dir entries) := by
    rw [f3keep bkp h6 h5, f2b]
  have f3s : fs3.lookup src = none := by
    rw [f3keep src h4 h3, f2s]
  have hmfind : findA (filterFiles entries) markerName = none := by
    refine findA_eq_none_of_not_mem ?_
    intro hh
    rcases List.mem_map.mp hh with ⟨e, he, hfe⟩
    exact hmark (List.mem_map.mpr ⟨e, List.mem_of_mem_filter he, hfe⟩)
  have hmlook : fs3.lookup (tgt ++ [markerName]) = none := by
    rw [lookup_concat_of_dir f3t, hmfind]
  have hmdir : fs3.isDir (tgt ++ [markerName]).dropLast = true := by
    rw [List.dropLast_concat]
    exact (isDir_iff _ _).mpr ⟨_, f3t⟩
  set mc := markerContent (renderPath src) (renderPath bkp) (renderPath tgt) now with hmc
  have hwf : writeFile fs3 (tgt ++ [markerName]) mc = .ok (fs3.insertAt (tgt ++ [markerName]) (.file mc)) := by
    unfold writeFile
    rw [hmdir, hmlook]
    simp
  set fsf := fs3.insertAt (tgt ++ [markerName]) (.file mc) with hfsf
  have fft : fsf.lookup tgt = some (.dir (filterFiles entries ++ [(markerName, .file mc)])) := by
    rw [hfsf, lookup_insertAt_concat f3t markerName (.file mc),
      setA_of_findA_none _ hmfind]
  have ffb : fsf.lookup bkp = some (.dir entries) := by
    rw [hfsf, lookup_insertAt_disjoint _ hpm1 hpm2, f3b]
  have ffs : fsf.lookup src = none := by
    rw [hfsf, lookup_insertAt_disjoint _ hpm3 hpm4, f3s]
  refine ⟨fsf, ?_, ffb, fft, ffs⟩
  unfold perform_migration copy_step
  rw [hmove]
  simp only [hmk]
  simp only [f2b]
  rw [copyTree.eq_def]
  simp only [f2t]
  rw [hres]
  simp [← hmc, hwf]

theorem isDir_of_prefix {fs : Node} {p q : FPath} (hpq : p <+: q)
    (h : fs.isDir q = true) : fs.isDir p = true := by
  obtain ⟨r, rfl⟩ := hpq
  obtain ⟨es, hes⟩ := (isDir_iff fs _).mp h
  rw [lookup_append] at hes
  cases hl : fs.lookup p with
  | none => rw [hl] at hes; cases hes
  | some n =>
      rw [hl] at hes
      have hes : n.lookup r = some (.dir es) := hes
      cases n with
      | dir es2 => exact (isDir_iff fs p).mpr ⟨es2, hl⟩
      | file c =>
          cases r with
          | nil => simp [Node.lookup] at hes
          | cons x xs => simp [Node.lookup] at hes
      | sock =>
          cases r with
          | nil => simp [Node.lookup] at hes
          | cons x xs => simp [Node.lookup] at hes

theorem writeFile_ok {fs fs2 : Node} {p : FPath} {c : String}
    (h : writeFile fs p c = .ok fs2) :
    fs2 = fs.insertAt p (.file c) ∧ fs.isDir p = false := by
  unfold writeFile at h
  split at h
  · cases hl : fs.lookup p with
    | none =>
        rw [hl] at h
        simp at h
        exact ⟨h.symm, by unfold Node.isDir; rw [hl]⟩
    | some n =>
        rw [hl] at h
        cases n with
        | dir es => simp at h
        | sock => simp at h
        | file c2 =>
            simp at h
            exact ⟨h.symm, by unfold Node.isDir; rw [hl]⟩
  · cases h

theorem sh_move_ok_dst {fs fs1 : Node} {src dst : FPath} (hne : dst ≠ [])
    (h : sh_move fs src dst = .ok fs1) : (fs1.lookup dst).isSome := by
  unfold sh_move at h
  by_cases hd : fs.isDir dst
  · simp only [hd, if_true] at h
    cases hex : fs.exists (dst ++ [lastName src]) with
    | true => simp [hex] at h
    | false =>
        simp only [hex, Bool.and_false, Bool.false_eq_true, if_false] at h
        cases hls : fs.lookup src with
        | none => rw [hls] at h; cases h
        | some n =>
            rw [hls] at h
            cases hlr : fs.lookup (dst ++ [lastName src]) with
            | some n2 =>
                rw [hlr] at h
                cases n2 with
                | dir es2 => cases h
                | file c2 =>
                    cases n with
                    | dir es3 => cases h
                    | file c3 =>
                        simp only [Except.ok.injEq] at h
                        subst h
                        have hnsd : ¬ (src <+: dst) := by
                          intro hh
                          have := isDir_of_prefix hh hd
                          obtain ⟨es4, hes4⟩ := (isDir_iff fs src).mp this
                          rw [hls] at hes4
                          cases hes4
                        have hed : (fs.eraseAt src).isDir dst = true := isDir_eraseAt hnsd hd
                        obtain ⟨es5, hes5⟩ := (isDir_iff _ _).mp hed
                        have : ¬ ((dst ++ [lastName src]) <+: dst) := by
                          intro hh
                          have := hh.length_le
                          simp at this
                        exact lookup_isSome_insertAt _ this (by simp [hes5])
                    | sock =>
                        simp only [Except.ok.injEq] at h
                        subst h
                        have hnsd : ¬ (src <+: dst) := by
                          intro hh
                          have := isDir_of_prefix hh hd
                          obtain ⟨es4, hes4⟩ := (isDir_iff fs src).mp this
                          rw [hls] at hes4
                          cases hes4
                        have hed : (fs.eraseAt src).isDir dst = true := isDir_eraseAt hnsd hd
                        obtain ⟨es5, hes5⟩ := (isDir_iff _ _).mp hed
                        have : ¬ ((dst ++ [lastName src]) <+: dst) := by
                          intro hh
                          have := hh.length_le
                          simp at this
                        exact lookup_isSome_insertAt _ this (by simp [hes5])
                | sock =>
                    cases n with
                    | dir es3 => cases h
                    | file c3 =>
                        simp only [Except.ok.injEq] at h
                        subst h
                        have hnsd : ¬ (src <+: dst) := by
                          intro hh
                          have := isDir_of_prefix hh hd
                          obtain ⟨es4, hes4⟩ := (isDir_iff fs src).mp this
                          rw [hls] at hes4
                          cases hes4
                        have hed : (fs.eraseAt src).isDir dst = true := isDir_eraseAt hnsd hd
                        obtain ⟨es5, hes5⟩ := (isDir_iff _ _).mp hed
                        have : ¬ ((dst ++ [lastName src]) <+: dst) := by
                          intro hh
                          have := hh.length_le
                          simp at this
                        exact lookup_isSome_insertAt _ this (by simp [hes5])
                    | sock =>
                        simp only [Except.ok.injEq] at h
                        subst h
                        have hnsd : ¬ (src <+: dst) := by
                          intro hh
                          have := isDir_of_prefix hh hd
                          obtain ⟨es4, hes4⟩ := (isDir_iff fs src).mp this
                          rw [hls] at hes4
                          cases hes4
                        have hed : (fs.eraseAt src).isDir dst = true := isDir_eraseAt hnsd hd
                        obtain ⟨es5, hes5⟩ := (isDir_iff _ _).mp hed
                        have : ¬ ((dst ++ [lastName src]) <+: dst) := by
                          intro hh
                          have := hh.length_le
                          simp at this
                        exact lookup_isSome_insertAt _ this (by simp [hes5])
            | none =>
                rw [hlr] at h
                cases hpr : src.isPrefixOf (dst ++ [lastName src]) with
                | true => rw [hpr] at h; simp at h
                | false =>
                    rw [hpr] at h
                    simp only [Bool.false_eq_true, if_false] at h
                    cases hdd : (fs.eraseAt src).isDir (dst ++ [lastName src]).dropLast with
                    | false => rw [hdd] at h; simp at h
                    | true =>
                        rw [hdd] at h
                        simp only [if_true, Except.ok.injEq] at h
                        subst h
                        rw [List.dropLast_concat] at hdd
                        obtain ⟨es5, hes5⟩ := (isDir_iff _ _).mp hdd
                        have : ¬ ((dst ++ [lastName src]) <+: dst) := by
                          intro hh
                          have := hh.length_le
                          simp at this
                        exact lookup_isSome_insertAt _ this (by simp [hes5])
  · have hdb : fs.isDir dst = false := by
      cases hh : fs.isDir dst with
      | true => exact absurd hh hd
      | false => rfl
    simp only [hdb, Bool.false_eq_true, if_false, Bool.false_and] at h
    cases hls : fs.lookup src with
    | none => rw [hls] at h; cases h
    | some n =>
        rw [hls] at h
        cases hlr : fs.lookup dst with
        | some n2 =>
            rw [hlr] at h
            cases n2 with
            | dir es2 => exact absurd ((isDir_iff fs dst).mpr ⟨es2, hlr⟩) hd
            | file c2 =>
                cases n with
                | dir es3 => cases h
                | file c3 =>
                    simp only [Except.ok.injEq] at h
                    subst h
                    have hcl : clearFor (fs.eraseAt src) dst = true :=
                      clearFor_eraseAt src (clearFor_of_lookup_isSome (by simp [hlr]))
                    simp [lookup_insertAt_self _ hcl]
                | sock =>
                    simp only [Except.ok.injEq] at h
                    subst h
                    have hcl : clearFor (fs.eraseAt src) dst = true :=
                      clearFor_eraseAt src (clearFor_of_lookup_isSome (by simp [hlr]))
                    simp [lookup_insertAt_self _ hcl]
            | sock =>
                cases n with
                | dir es3 => cases h
                | file c3 =>
                    simp only [Except.ok.injEq] at h
                    subst h
                    have hcl : clearFor (fs.eraseAt src) dst = true :=
                      clearFor_eraseAt src (clearFor_of_lookup_isSome (by simp [hlr]))
                    simp [lookup_insertAt_self _ hcl]
                | sock =>
                    simp only [Except.ok.injEq] at h
                    subst h
                    have hcl : clearFor (fs.eraseAt src) dst = true :=
                      clearFor_eraseAt src (clearFor_of_lookup_isSome (by simp [hlr]))
                    simp [lookup_insertAt_self _ hcl]
        | none =>
            rw [hlr] at h
            cases hpr : src.isPrefixOf dst with
            | true => rw [hpr] at h; simp at h
            | false =>
                rw [hpr] at h
                simp only [Bool.false_eq_true, if_false] at h
                cases hdd : (fs.eraseAt src).isDir dst.dropLast with
                | false => rw [hdd] at h; simp at h
                | true =>
                    rw [hdd] at h
                    simp only [if_true, Except.ok.injEq] at h
                    subst h
                    have hcl : clearFor (fs.eraseAt src) dst = true :=
                      clearFor_of_isDir_dropLast hne hdd
                    simp [lookup_insertAt_self _ hcl]

theorem S_ISSOCK_modeSock : S_ISSOCK modeSock = true := by decide

theorem S_ISSOCK_modeFile : S_ISSOCK modeFile = false := by decide

theorem S_ISSOCK_modeDir : S_ISSOCK modeDir = false := by decide

theorem renderPath_single (s : String) : renderPath [s] = s := rfl

/-! ## Claim theorems -/

/-- C1: For every source directory containing N regular files and M socket
files (a flat entry list of leaves with distinct names, none named like the
marker), with the backup and target paths fresh and not overlapping the
source, if `perform_migration(source, backup, target)` returns success then
afterwards the backup path holds exactly the original source directory node
(byte-identical regular-file content), the target holds exactly the N regular
files (sockets excluded) plus the marker file, and the source's original path
no longer exists. -/
theorem claim_C1_migration_postconditions
    (fs : Node) (src bkp tgt : FPath) (now : String) (entries : List (String × Node))
    (hsrc : fs.lookup src = some (.dir entries))
    (hleaf : ∀ e ∈ entries, isLeaf e.2 = true)
    (hnd : (entries.map (fun e => e.1)).Nodup)
    (hmark : markerName ∉ entries.map (fun e => e.1))
    (hsne : src ≠ []) (hbne : bkp ≠ [])
    (hb : fs.lookup bkp = none) (hbp : fs.isDir bkp.dropLast = true)
    (ht : fs.lookup tgt = none) (htc : clearFor fs tgt = true)
    (h1 : ¬ (src <+: bkp)) (h2 : ¬ (bkp <+: src)) (h3 : ¬ (src <+: tgt))
    (h4 : ¬ (tgt <+: src)) (h5 : ¬ (bkp <+: tgt)) (h6 : ¬ (tgt <+: bkp))
    (_hsuccess : (perform_migration fs src bkp tgt now).1 = true) :
    ((perform_migration fs src bkp tgt now).2).lookup bkp = some (.dir entries)
    ∧ ((perform_migration fs src bkp tgt now).2).lookup tgt
        = some (.dir (filterFiles entries ++
            [(markerName, .file (markerContent (renderPath src) (renderPath bkp)
                (renderPath tgt) now))]))
    ∧ ((perform_migration fs src bkp tgt now).2).lookup src = none := by
  obtain ⟨fsf, heq, hx1, hx2, hx3⟩ := perform_migration_success_shape now hsrc hleaf hnd
    hmark hsne hbne hb hbp ht htc h1 h2 h3 h4 h5 h6
  rw [heq]
  exact ⟨hx1, hx2, hx3⟩

/-- Witness for C1 at a concrete one-file, one-socket source directory. -/
theorem claim_C1_migration_postconditions_witness :
    ((perform_migration (.dir [("el", .dir [("w", .file "x"), ("s", .sock)])])
        ["el"] ["bk"] ["fw"] "T").2).lookup ["bk"]
      = some (.dir [("w", .file "x"), ("s", .sock)])
    ∧ ((perform_migration (.dir [("el", .dir [("w", .file "x"), ("s", .sock)])])
        ["el"] ["bk"] ["fw"] "T").2).lookup ["fw"]
      = some (.dir [("w", .file "x"),
          (markerName, .file (markerContent "el" "bk" "fw" "T"))])
    ∧ ((perform_migration (.dir [("el", .dir [("w", .file "x"), ("s", .sock)])])
        ["el"] ["bk"] ["fw"] "T").2).lookup ["el"] = none := by
  have h := claim_C1_migration_postconditions
    (.dir [("el", .dir [("w", .file "x"), ("s", .sock)])]) ["el"] ["bk"] ["fw"] "T"
    [("w", .file "x"), ("s", .sock)]
    (by simp [Node.lookup, findA]) (by decide) (by decide) (by decide)
    (by decide) (by decide)
    (by simp [Node.lookup, findA]) (by simp [Node.isDir, Node.lookup])
    (by simp [Node.lookup, findA]) (by simp [clearFor, findA])
    (by decide) (by decide) (by decide) (by decide) (by decide) (by decide)
    (by simp [perform_migration, copy_step, sh_move, Node.isDir, Node.lookup, Node.exists, findA,
      Node.eraseAt, eraseA, Node.insertAt, setA, mkPath, clearFor, lastName, make_dir,
      copyTree, copyEntries, ignore_sockets, statOfEntries,
      S_ISSOCK_modeSock, S_ISSOCK_modeFile, S_ISSOCK_modeDir,
      writeFile, markerName, List.isPrefixOf])
  simpa [filterFiles, renderPath_single] using h

/-- C5: After a successful run, a second run of `perform_migration` with the
same arguments fails with a file-not-found error naming the now-missing
source (`shutil.move` is not idempotent), and it leaves the filesystem -- in
particular the backup and target produced by the first run -- exactly as the
first run left it. -/
theorem claim_C5_second_run_fails
    (fs : Node) (src bkp tgt : FPath) (now now2 : String) (entries : List (String × Node))
    (hsrc : fs.lookup src = some (.dir entries))
    (hleaf : ∀ e ∈ entries, isLeaf e.2 = true)
    (hnd : (entries.map (fun e => e.1)).Nodup)
    (hmark : markerName ∉ entries.map (fun e => e.1))
    (hlast : lastName src ∉ entries.map (fun e => e.1))
    (hsne : src ≠ []) (hbne : bkp ≠ [])
    (hb : fs.lookup bkp = none) (hbp : fs.isDir bkp.dropLast = true)
    (ht : fs.lookup tgt = none) (htc : clearFor fs tgt = true)
    (h1 : ¬ (src <+: bkp)) (h2 : ¬ (bkp <+: src)) (h3 : ¬ (src <+: tgt))
    (h4 : ¬ (tgt <+: src)) (h5 : ¬ (bkp <+: tgt)) (h6 : ¬ (tgt <+: bkp)) :
    (perform_migration fs src bkp tgt now).1 = true
    ∧ sh_move ((perform_migration fs src bkp tgt now).2) src bkp
        = .error (.fileNotFound (renderPath src))
    ∧ perform_migration ((perform_migration fs src bkp tgt now).2) src bkp tgt now2
        = (false, (perform_migration fs src bkp tgt now).2) := by
  obtain ⟨fsf, heq, hx1, hx2, hx3⟩ := perform_migration_success_shape now hsrc hleaf hnd
    hmark hsne hbne hb hbp ht htc h1 h2 h3 h4 h5 h6
  rw [heq]
  have hdt : fsf.isDir bkp = true := (isDir_iff _ _).mpr ⟨_, hx1⟩
  have hfind : findA entries (lastName src) = none := findA_eq_none_of_not_mem hlast
  have hex : fsf.exists (bkp ++ [lastName src]) = false := by
    unfold Node.exists
    rw [lookup_concat_of_dir hx1, hfind]
    rfl
  have hserr : sh_move fsf src bkp = .error (.fileNotFound (renderPath src)) := by
    unfold sh_move
    simp only [hdt, if_true, hex, Bool.and_false, Bool.false_eq_true, if_false, hx3]
  refine ⟨rfl, hserr, ?_⟩
  simp [perform_migration, hserr]

/-- Witness for C5 at the same concrete one-file, one-socket source. -/
theorem claim_C5_second_run_fails_witness :
    (perform_migration (.dir [("el", .dir [("w", .file "x"), ("s", .sock)])])
        ["el"] ["bk"] ["fw"] "T").1 = true
    ∧ sh_move ((perform_migration (.dir [("el", .dir [("w", .file "x"), ("s", .sock)])])
        ["el"] ["bk"] ["fw"] "T").2) ["el"] ["bk"]
        = .error (.fileNotFound (renderPath ["el"]))
    ∧ perform_migration ((perform_migration
          (.dir [("el", .dir [("w", .file "x"), ("s", .sock)])])
          ["el"] ["bk"] ["fw"] "T").2) ["el"] ["bk"] ["fw"] "U"
        = (false, (perform_migration (.dir [("el", .dir [("w", .file "x"), ("s", .sock)])])
            ["el"] ["bk"] ["fw"] "T").2) :=
  claim_C5_second_run_fails
    (.dir [("el", .dir [("w", .file "x"), ("s", .sock)])]) ["el"] ["bk"] ["fw"] "T" "U"
    [("w", .file "x"), ("s", .sock)]
    (by simp [Node.lookup, findA]) (by decide) (by decide) (by decide) (by decide)
    (by decide) (by decide)
    (by simp [Node.lookup, findA]) (by simp [Node.isDir, Node.lookup])
    (by simp [Node.lookup, findA]) (by simp [clearFor, findA])
    (by decide) (by decide) (by decide) (by decide) (by decide) (by decide)

/-- C2: `perform_migration` is total -- an exception at any of the four
steps is caught and becomes the return value `(false, state-so-far)`: a
step-1 (`shutil.move`) failure returns `false` with the filesystem
untouched, a step-3 copy error and a step-4 marker-write error each return
`false` with the state the failing step left; and whenever step 1 succeeded
the backup directory is still present in the final state, success or
failure -- no later step ever deletes it. -/
theorem claim_C2_never_raises_backup_kept
    (fs : Node) (src bkp tgt : FPath) (now : String) (hbne : bkp ≠ []) :
    (∀ e, sh_move fs src bkp = .error e →
        perform_migration fs src bkp tgt now = (false, fs))
    ∧ (∀ fs1 fs3 e es, sh_move fs src bkp = .ok fs1 →
        copy_step (make_dir fs1 tgt) bkp tgt = (fs3, e :: es) →
        perform_migration fs src bkp tgt now = (false, fs3))
    ∧ (∀ fs1 fs3 err, sh_move fs src bkp = .ok fs1 →
        copy_step (make_dir fs1 tgt) bkp tgt = (fs3, []) →
        writeFile fs3 (tgt ++ [markerName])
          (markerContent (renderPath src) (renderPath bkp) (renderPath tgt) now)
          = .error err →
        perform_migration fs src bkp tgt now = (false, fs3))
    ∧ (∀ fs1, sh_move fs src bkp = .ok fs1 →
        (((perform_migration fs src bkp tgt now).2).lookup bkp).isSome) := by
  refine ⟨?_, ?_, ?_, ?_⟩
  · intro e he
    simp [perform_migration, he]
  · intro fs1 fs3 e es hok hcopy
    unfold perform_migration
    rw [hok]
    simp only [hcopy]
  · intro fs1 fs3 err hok hcopy hw
    unfold perform_migration
    rw [hok]
    simp only [hcopy, hw]
  · intro fs1 hok
    have hh1 : (fs1.lookup bkp).isSome := sh_move_ok_dst hbne hok
    have hh2 : ((make_dir fs1 tgt).lookup bkp).isSome := by
      by_cases hex : fs1.exists tgt
      · simpa [make_dir, hex] using hh1
      · have hnd : fs1.isDir tgt = false := by
          unfold Node.isDir
          unfold Node.exists at hex
          rw [Option.not_isSome_iff_eq_none.mp hex]
        simpa [make_dir, hex] using lookup_isSome_insertAt_of_not_dir _ hnd hh1
    unfold perform_migration copy_step
    rw [hok]
    simp only
    cases hlb : (make_dir fs1 tgt).lookup bkp with
    | none => rw [hlb] at hh2; simp at hh2
    | some n =>
        simp only [hlb]
        have hh3 := copyTree_keeps n (make_dir fs1 tgt) tgt hh2
        rcases hct : copyTree n (make_dir fs1 tgt) tgt with ⟨fs3, errs⟩
        rw [hct] at hh3
        cases errs with
        | cons e es => simpa using hh3
        | nil =>
            simp only
            cases hw : writeFile fs3 (tgt ++ [markerName])
                (markerContent (renderPath src) (renderPath bkp) (renderPath tgt) now) with
            | error e2 => simp only [hw]; simpa using hh3
            | ok fs4 =>
                simp only [hw]
                obtain ⟨hfs4, hnd4⟩ := writeFile_ok hw
                subst hfs4
                simpa using lookup_isSome_insertAt_of_not_dir _ hnd4 hh3

/-- Witness for C2: a failing first step (missing source) is converted to
`(false, fs)`, and after a successful first step the backup survives. -/
theorem claim_C2_never_raises_backup_kept_witness :
    perform_migration (.dir []) ["el"] ["bk"] ["fw"] "T" = (false, .dir [])
    ∧ (((perform_migration (.dir [("el", .dir [("w", .file "x")])])
          ["el"] ["bk"] ["fw"] "T").2).lookup ["bk"]).isSome := by
  constructor
  · exact (claim_C2_never_raises_backup_kept (.dir []) ["el"] ["bk"] ["fw"] "T"
      (by decide)).1 (.fileNotFound (renderPath ["el"]))
      (by simp [sh_move, Node.isDir, Node.lookup, Node.exists, findA])
  · exact (claim_C2_never_raises_backup_kept
      (.dir [("el", .dir [("w", .file "x")])]) ["el"] ["bk"] ["fw"] "T"
      (by decide)).2.2.2
      ((Node.dir [("el", .dir [("w", .file "x")])]).eraseAt ["el"]
        |>.insertAt ["bk"] (.dir [("w", .file "x")]))
      (by simp [sh_move, Node.isDir, Node.lookup, Node.exists, findA, lastName,
        List.isPrefixOf, Node.eraseAt, eraseA])

theorem readFile_eq_ok {fs : Node} {p : FPath} {t : String}
    (h : readFile fs p = .ok t) : fs.lookup p = some (.file t) := by
  unfold readFile at h
  cases hl : fs.lookup p with
  | none => rw [hl] at h; cases h
  | some n =>
      rw [hl] at h
      cases n with
      | file c => simp only [Except.ok.injEq] at h; rw [h]
      | dir es => cases h
      | sock => cases h

theorem lookup_isSome_of_append {fs : Node} {p q : FPath}
    (h : (fs.lookup (p ++ q)).isSome) : (fs.lookup p).isSome := by
  rw [lookup_append] at h
  cases hl : fs.lookup p with
  | none => rw [hl] at h; simp at h
  | some n => simp

/-- C3 counterexample: a directory whose config file parses (as a JSON
object whose `blockchain_preferred_block` is the string `"x"`, so the
`hash` field is absent) on which the claim demands `false`, while
`is_factwallet_data` instead raises `AttributeError`
(`"x".get('hash')` has no `.get`; the `except` clause catches only
`json.JSONDecodeError` and `OSError`). -/
theorem claim_C3_counterexample :
    is_factwallet_data
      (fun _ => some (Json.obj [("blockchain_preferred_block", Json.str "x")]))
      (.dir [("d", .dir [("config", .file "{}")])]) ["d"]
      = .error .attributeError
    ∧ is_factwallet_data
      (fun _ => some (Json.obj [("blockchain_preferred_block", Json.str "x")]))
      (.dir [("d", .dir [("config", .file "{}")])]) ["d"]
      ≠ .ok false := by
  constructor
  · simp [is_factwallet_data, Node.exists, Node.lookup, findA, readFile]
  · simp [is_factwallet_data, Node.exists, Node.lookup, findA, readFile]

/-- C3 (amended): for a config file that reads and parses as a JSON object,
`is_factwallet_data` returns true iff the object's
`blockchain_preferred_block` field is an object whose `hash` field is a
string equal to one of the two hardcoded genesis literals, regardless of any
other fields; it returns false when the hash is a different string, when
the hash field is absent, when the hash field is present but not a string
(a non-string value is never `in` the list of the two string literals), or
when `blockchain_preferred_block` is absent entirely; but when
`blockchain_preferred_block` is present and not an object the function
raises `AttributeError` instead of returning false. -/
theorem claim_C3_fingerprint_detection
    (parse : String → Option Json) (fs : Node) (d : FPath)
    (text : String) (fields : List (String × Json))
    (hread : readFile fs (d ++ ["config"]) = .ok text)
    (hparse : parse text = some (.obj fields)) :
    (∀ bf h, findA fields "blockchain_preferred_block" = some (.obj bf) →
        findA bf "hash" = some (.str h) →
        (h = FACT_MAINNET_GENESIS ∨ h = FACT_TESTNET_GENESIS) →
        is_factwallet_data parse fs d = .ok true)
    ∧ (∀ bf h, findA fields "blockchain_preferred_block" = some (.obj bf) →
        findA bf "hash" = some (.str h) →
        ¬ (h = FACT_MAINNET_GENESIS ∨ h = FACT_TESTNET_GENESIS) →
        is_factwallet_data parse fs d = .ok false)
    ∧ (∀ bf, findA fields "blockchain_preferred_block" = some (.obj bf) →
        findA bf "hash" = none →
        is_factwallet_data parse fs d = .ok false)
    ∧ (∀ bf j, findA fields "blockchain_preferred_block" = some (.obj bf) →
        findA bf "hash" = some j →
        (∀ s, j ≠ .str s) →
        is_factwallet_data parse fs d = .ok false)
    ∧ (findA fields "blockchain_preferred_block" = none →
        is_factwallet_data parse fs d = .ok false)
    ∧ (∀ j, findA fields "blockchain_preferred_block" = some j →
        (∀ bf, j ≠ .obj bf) →
        is_factwallet_data parse fs d = .error .attributeError) := by
  have hcfg : fs.lookup (d ++ ["config"]) = some (.file text) := readFile_eq_ok hread
  have hex2 : fs.exists (d ++ ["config"]) = true := by simp [Node.exists, hcfg]
  have hex1 : fs.exists d = true := by
    have hh : (fs.lookup (d ++ ["config"])).isSome := by rw [hcfg]; rfl
    have := lookup_isSome_of_append hh
    unfold Node.exists
    exact this
  refine ⟨?_, ?_, ?_, ?_, ?_, ?_⟩
  · intro bf h hbpb hhash hin
    simp only [is_factwallet_data, hex1, hex2, Bool.not_true, Bool.false_eq_true,
      if_false, if_true, hread, hparse, hbpb, Option.getD_some, hhash, if_pos hin]
  · intro bf h hbpb hhash hin
    simp only [is_factwallet_data, hex1, hex2, Bool.not_true, Bool.false_eq_true,
      if_false, if_true, hread, hparse, hbpb, Option.getD_some, hhash, if_neg hin]
  · intro bf hbpb hhash
    simp only [is_factwallet_data, hex1, hex2, Bool.not_true, Bool.false_eq_true,
      if_false, if_true, hread, hparse, hbpb, Option.getD_some, hhash]
  · intro bf j hbpb hhash hnstr
    cases j with
    | str s => exact absurd rfl (hnstr s)
    | null =>
        simp only [is_factwallet_data, hex1, hex2, Bool.not_true, Bool.false_eq_true,
          if_false, if_true, hread, hparse, hbpb, Option.getD_some, hhash]
    | bool b =>
        simp only [is_factwallet_data, hex1, hex2, Bool.not_true, Bool.false_eq_true,
          if_false, if_true, hread, hparse, hbpb, Option.getD_some, hhash]
    | num n =>
        simp only [is_factwallet_data, hex1, hex2, Bool.not_true, Bool.false_eq_true,
          if_false, if_true, hread, hparse, hbpb, Option.getD_some, hhash]
    | arr xs =>
        simp only [is_factwallet_data, hex1, hex2, Bool.not_true, Bool.false_eq_true,
          if_false, if_true, hread, hparse, hbpb, Option.getD_some, hhash]
    | obj fs2 =>
        simp only [is_factwallet_data, hex1, hex2, Bool.not_true, Bool.false_eq_true,
          if_false, if_true, hread, hparse, hbpb, Option.getD_some, hhash]
  · intro hbpb
    simp only [is_factwallet_data, hex1, hex2, Bool.not_true, Bool.false_eq_true,
      if_false, if_true, hread, hparse, hbpb, Option.getD_none, findA]
  · intro j hbpb hnobj
    cases j with
    | obj bf => exact absurd rfl (hnobj bf)
    | null =>
        simp only [is_factwallet_data, hex1, hex2, Bool.not_true, Bool.false_eq_true,
          if_false, if_true, hread, hparse, hbpb, Option.getD_some]
    | bool b =>
        simp only [is_factwallet_data, hex1, hex2, Bool.not_true, Bool.false_eq_true,
          if_false, if_true, hread, hparse, hbpb, Option.getD_some]
    | num n =>
        simp only [is_factwallet_data, hex1, hex2, Bool.not_true, Bool.false_eq_true,
          if_false, if_true, hread, hparse, hbpb, Option.getD_some]
    | str s =>
        simp only [is_factwallet_data, hex1, hex2, Bool.not_true, Bool.false_eq_true,
          if_false, if_true, hread, hparse, hbpb, Option.getD_some]
    | arr xs =>
        simp only [is_factwallet_data, hex1, hex2, Bool.not_true, Bool.false_eq_true,
          if_false, if_true, hread, hparse, hbpb, Option.getD_some]

/-- Witness for C3 (amended): the mainnet literal is recognized in a config
carrying an unrelated extra field, and a present non-string hash value
(a number) yields false. -/
theorem claim_C3_fingerprint_detection_witness :
    is_factwallet_data
      (fun _ => some (Json.obj [("other", Json.num 3),
        ("blockchain_preferred_block", Json.obj
          [("hash", Json.str FACT_MAINNET_GENESIS), ("height", Json.num 0)])]))
      (.dir [("d", .dir [("config", .file "{}")])]) ["d"] = .ok true
    ∧ is_factwallet_data
      (fun _ => some (Json.obj [("blockchain_preferred_block", Json.obj
          [("hash", Json.num 7)])]))
      (.dir [("d", .dir [("config", .file "{}")])]) ["d"] = .ok false := by
  constructor
  · exact (claim_C3_fingerprint_detection
      (fun _ => some (Json.obj [("other", Json.num 3),
        ("blockchain_preferred_block", Json.obj
          [("hash", Json.str FACT_MAINNET_GENESIS), ("height", Json.num 0)])]))
      (.dir [("d", .dir [("config", .file "{}")])]) ["d"] "{}"
      [("other", Json.num 3),
        ("blockchain_preferred_block", Json.obj
          [("hash", Json.str FACT_MAINNET_GENESIS), ("height", Json.num 0)])]
      (by simp [readFile, Node.lookup, findA]) rfl).1
      [("hash", Json.str FACT_MAINNET_GENESIS), ("height", Json.num 0)]
      FACT_MAINNET_GENESIS (by simp [findA]) (by simp [findA]) (Or.inl rfl)
  · exact (claim_C3_fingerprint_detection
      (fun _ => some (Json.obj [("blockchain_preferred_block", Json.obj
          [("hash", Json.num 7)])]))
      (.dir [("d", .dir [("config", .file "{}")])]) ["d"] "{}"
      [("blockchain_preferred_block", Json.obj [("hash", Json.num 7)])]
      (by simp [readFile, Node.lookup, findA]) rfl).2.2.2.1
      [("hash", Json.num 7)] (Json.num 7)
      (by simp [findA]) (by simp [findA]) (fun s hh => by cases hh)

/-- C4: `is_factwallet_data` returns false rather than raising whenever the
directory does not exist, the config file does not exist, the config file
cannot be opened (any `OSError`), or its text does not parse as JSON. -/
theorem claim_C4_detection_failures_absorbed
    (parse : String → Option Json) (fs : Node) (d : FPath)
    (h : fs.lookup d = none
      ∨ fs.lookup (d ++ ["config"]) = none
      ∨ (∃ e, readFile fs (d ++ ["config"]) = .error e)
      ∨ (∃ t, readFile fs (d ++ ["config"]) = .ok t ∧ parse t = none)) :
    is_factwallet_data parse fs d = .ok false := by
  rcases h with h | h | ⟨e, he⟩ | ⟨t, ht, hp⟩
  · simp [is_factwallet_data, Node.exists, h]
  · cases hld : fs.lookup d with
    | none => simp [is_factwallet_data, Node.exists, hld]
    | some n => simp [is_factwallet_data, Node.exists, hld, h]
  · cases hld : fs.lookup d with
    | none => simp [is_factwallet_data, Node.exists, hld]
    | some n =>
        cases hlc : fs.lookup (d ++ ["config"]) with
        | none => simp [is_factwallet_data, Node.exists, hld, hlc]
        | some n2 => simp [is_factwallet_data, Node.exists, hld, hlc, he]
  · cases hld : fs.lookup d with
    | none => simp [is_factwallet_data, Node.exists, hld]
    | some n =>
        cases hlc : fs.lookup (d ++ ["config"]) with
        | none => simp [is_factwallet_data, Node.exists, hld, hlc]
        | some n2 => simp [is_factwallet_data, Node.exists, hld, hlc, ht, hp]

/-- Witness for C4: a missing directory, a config that is a directory
(open raises `IsADirectoryError`, an `OSError`), and an unparsable config
all give false. -/
theorem claim_C4_detection_failures_absorbed_witness :
    is_factwallet_data (fun _ => some (Json.obj [])) (.dir []) ["d"] = .ok false
    ∧ is_factwallet_data (fun _ => some (Json.obj []))
        (.dir [("d", .dir [("config", .dir [])])]) ["d"] = .ok false
    ∧ is_factwallet_data (fun _ => none)
        (.dir [("d", .dir [("config", .file "not json")])]) ["d"] = .ok false := by
  refine ⟨?_, ?_, ?_⟩
  · exact claim_C4_detection_failures_absorbed _ _ _
      (Or.inl (by simp [Node.lookup, findA]))
  · exact claim_C4_detection_failures_absorbed _ _ _
      (Or.inr (Or.inr (Or.inl ⟨.isADirectory (renderPath ["d", "config"]),
        by simp [readFile, Node.lookup, findA]⟩)))
  · exact claim_C4_detection_failures_absorbed _ _ _
      (Or.inr (Or.inr (Or.inr ⟨"not json",
        by simp [readFile, Node.lookup, findA], rfl⟩)))

/-- C6: `run_migration` returns success both when the executor succeeds
after user consent and when the user declines (source untouched,
success-with-skip), and raises to its caller exactly when the executor
reported failure after consent. -/
theorem claim_C6_run_migration_outcome
    (consent : Bool) (fs : Node) (e f : FPath) (when now : String) :
    (consent = true → (perform_migration fs e (backup_path e when) f now).1 = true →
        run_migration consent fs e f when now
          = .ok (true, (perform_migration fs e (backup_path e when) f now).2))
    ∧ (consent = false → run_migration consent fs e f when now = .ok (true, fs))
    ∧ (∀ err, run_migration consent fs e f when now = .error err
        ↔ (consent = true ∧ (perform_migration fs e (backup_path e when) f now).1 = false
            ∧ err = .exception "Error during wallet migration")) := by
  refine ⟨?_, ?_, ?_⟩
  · intro hc hs
    subst hc
    rcases hpm : perform_migration fs e (backup_path e when) f now with ⟨b, fs1⟩
    rw [hpm] at hs
    simp only at hs
    subst hs
    simp [run_migration, MigrationDialog_exec, hpm]
  · intro hc
    subst hc
    simp [run_migration, MigrationDialog_exec]
  · intro err
    cases hc : consent with
    | false => simp [run_migration, MigrationDialog_exec]
    | true =>
        rcases hpm : perform_migration fs e (backup_path e when) f now with ⟨b, fs1⟩
        cases b with
        | true => simp [run_migration, MigrationDialog_exec, hpm]
        | false =>
            have hrun : run_migration true fs e f when now
                = .error (.exception "Error during wallet migration") := by
              simp [run_migration, MigrationDialog_exec, hpm]
            rw [hrun]
            constructor
            · intro hh
              injection hh with hh2
              exact ⟨rfl, rfl, hh2.symm⟩
            · rintro ⟨-, -, rfl⟩
              rfl

/-- Witness for C6: a declining user yields success with the filesystem
untouched; a consenting user with a missing source (executor failure)
makes `run_migration` raise. -/
theorem claim_C6_run_migration_outcome_witness :
    run_migration false (.dir []) ["el"] ["fw"] "W" "T" = .ok (true, .dir [])
    ∧ run_migration true (.dir []) ["el"] ["fw"] "W" "T"
        = .error (.exception "Error during wallet migration") := by
  constructor
  · exact (claim_C6_run_migration_outcome false (.dir []) ["el"] ["fw"] "W" "T").2.1 rfl
  · exact ((claim_C6_run_migration_outcome true (.dir []) ["el"] ["fw"] "W" "T").2.2
      (.exception "Error during wallet migration")).mpr
      ⟨rfl, by simp [perform_migration, sh_move, Node.isDir, Node.lookup, Node.exists,
        findA, backup_path, lastName], rfl⟩

/-- C10: calling `check_for_migration` with `config_options = None` (its
declared default) raises `AttributeError` at the very first statement
`config_options.get('portable', False)` -- before the Android check, path
resolution, or any filesystem access: the result is this error for every
environment and every filesystem. -/
theorem claim_C10_none_options_raises
    (parse : String → Option Json) (consent : Bool) (when now : String)
    (env : Env) (fs : Node) :
    check_for_migration parse consent when now none env fs = .error .attributeError := rfl

/-- Witness for C10, with the Android skip marker set and predecessor data
on disk: the error still wins. -/
theorem claim_C10_none_options_raises_witness :
    check_for_migration (fun _ => none) true "W" "T" none
      { android := true, userDir := ["fw"], oldUserDir := some ["el"] }
      (.dir [("el", .dir [])]) = .error .attributeError :=
  claim_C10_none_options_raises _ _ _ _ _ _

/-- C8 counterexample: an entry whose `stat` raises is left OFF the ignore
list -- `ignore_sockets` with an always-raising `stat` returns `[]`, so the
entry `"x"` is not excluded from the copy, contradicting the claim that
unclassifiable entries are silently skipped. -/
theorem claim_C8_counterexample :
    ignore_sockets (fun _ => none) ["x"] = []
    ∧ "x" ∉ ignore_sockets (fun _ => none) ["x"] := by
  refine ⟨rfl, ?_⟩
  intro hh
  simp [ignore_sockets] at hh

/-- C8 (amended): in the copy step's `ignore_sockets` callback, every entry
whose `stat` reports a socket is excluded from the copy (returned on the
ignore list), and every entry whose `stat` raises (unclassifiable) is NOT
excluded -- it is left off the ignore list and passed through to the copy
attempt. -/
theorem claim_C8_socket_exclusion
    (statOf : String → Option Nat) (files : List String) :
    (∀ f ∈ files, ∀ m, statOf f = some m → S_ISSOCK m = true →
        f ∈ ignore_sockets statOf files)
    ∧ (∀ f, statOf f = none → f ∉ ignore_sockets statOf files) := by
  constructor
  · intro f hf m hm hs
    exact (mem_ignore_sockets statOf files f).mpr ⟨hf, m, hm, hs⟩
  · intro f hm hmem
    obtain ⟨-, m, hm2, -⟩ := (mem_ignore_sockets statOf files f).mp hmem
    rw [hm] at hm2
    cases hm2

/-- Witness for C8 (amended): a socket entry lands on the ignore list and an
unstattable entry does not. -/
theorem claim_C8_socket_exclusion_witness :
    "s" ∈ ignore_sockets (fun f => if f = "s" then some modeSock else none) ["a", "s"]
    ∧ "a" ∉ ignore_sockets (fun f => if f = "s" then some modeSock else none) ["a", "s"] := by
  constructor
  · exact (claim_C8_socket_exclusion _ _).1 "s" (by simp) modeSock (by simp)
      S_ISSOCK_modeSock
  · exact (claim_C8_socket_exclusion _ _).2 "a" (by simp)

theorem renderPath_cons (x : String) (l : FPath) (hl : l ≠ []) :
    renderPath (x :: l) = x ++ "/" ++ renderPath l := by
  cases l with
  | nil => exact absurd rfl hl
  | cons y rest => rfl

theorem renderPath_snoc_suffix (e : FPath) (s : String) (he : e ≠ []) :
    renderPath (e.dropLast ++ [lastName e ++ s]) = renderPath e ++ s := by
  induction e with
  | nil => exact absurd rfl he
  | cons x rest ih =>
      cases rest with
      | nil => rfl
      | cons y rest2 =>
          have hne : (y :: rest2) ≠ [] := by simp
          have h1 : (x :: y :: rest2).dropLast = x :: (y :: rest2).dropLast := rfl
          have h2 : lastName (x :: y :: rest2) = lastName (y :: rest2) := by
            simp [lastName, List.getLast?_cons_cons]
          rw [h1, h2, List.cons_append,
            renderPath_cons x ((y :: rest2).dropLast ++ [lastName (y :: rest2) ++ s])
              (by simp),
            ih hne, renderPath_cons x (y :: rest2) hne]
          simp [String.append_assoc]

/-- C9 counterexample: at a concrete successful migration the marker file
content wraps each path in backticks, so it does not have the exact
plain-text form `Migrated from <source> (backup: <backup>) to <target> on
<timestamp>` that the claim states. -/
theorem claim_C9_counterexample :
    (perform_migration (.dir [("el", .dir [("w", .file "x")])])
        ["el"] ["bk"] ["fw"] "T").1 = true
    ∧ ((perform_migration (.dir [("el", .dir [("w", .file "x")])])
        ["el"] ["bk"] ["fw"] "T").2).lookup ["fw", ".migrated_from_electrum"]
      = some (.file (markerContent "el" "bk" "fw" "T"))
    ∧ markerContent "el" "bk" "fw" "T"
      = "Migrated from `el` (backup: `bk`) to `fw` on T"
    ∧ markerContent "el" "bk" "fw" "T"
      ≠ "Migrated from el (backup: bk) to fw on T" := by
  refine ⟨?_, ?_, rfl, by decide⟩
  · simp [perform_migration, copy_step, sh_move, Node.isDir, Node.lookup, Node.exists, findA,
      Node.eraseAt, eraseA, Node.insertAt, setA, mkPath, clearFor, lastName, make_dir,
      copyTree, copyEntries, ignore_sockets, statOfEntries,
      S_ISSOCK_modeSock, S_ISSOCK_modeFile, S_ISSOCK_modeDir,
      writeFile, markerName, List.isPrefixOf, renderPath_single]
  · simp [perform_migration, copy_step, sh_move, Node.isDir, Node.lookup, Node.exists, findA,
      Node.eraseAt, eraseA, Node.insertAt, setA, mkPath, clearFor, lastName, make_dir,
      copyTree, copyEntries, ignore_sockets, statOfEntries,
      S_ISSOCK_modeSock, S_ISSOCK_modeFile, S_ISSOCK_modeDir,
      writeFile, markerName, List.isPrefixOf, renderPath_single]

/-- C9 (amended): on a successful migration the marker file written at
`<target>/.migrated_from_electrum` contains the single line
`Migrated from \x60<source>\x60 (backup: \x60<backup>\x60) to
\x60<target>\x60 on <timestamp>` -- the claimed format with each path
additionally wrapped in backticks -- and the dialog's backup path is the
source path string with `-backupByFactWallet-<timestamp>` appended. -/
theorem claim_C9_marker_and_backup_naming
    (fs : Node) (src bkp tgt : FPath) (now : String) (entries : List (String × Node))
    (hsrc : fs.lookup src = some (.dir entries))
    (hleaf : ∀ e ∈ entries, isLeaf e.2 = true)
    (hnd : (entries.map (fun e => e.1)).Nodup)
    (hmark : markerName ∉ entries.map (fun e => e.1))
    (hsne : src ≠ []) (hbne : bkp ≠ [])
    (hb : fs.lookup bkp = none) (hbp : fs.isDir bkp.dropLast = true)
    (ht : fs.lookup tgt = none) (htc : clearFor fs tgt = true)
    (h1 : ¬ (src <+: bkp)) (h2 : ¬ (bkp <+: src)) (h3 : ¬ (src <+: tgt))
    (h4 : ¬ (tgt <+: src)) (h5 : ¬ (bkp <+: tgt)) (h6 : ¬ (tgt <+: bkp)) :
    ((perform_migration fs src bkp tgt now).2).lookup (tgt ++ [markerName])
      = some (.file ("Migrated from `" ++ renderPath src ++ "` (backup: `"
          ++ renderPath bkp ++ "`) to `" ++ renderPath tgt ++ "` on " ++ now))
    ∧ (∀ (e2 : FPath) (when : String), e2 ≠ [] →
        renderPath (backup_path e2 when) = renderPath e2 ++ "-backupByFactWallet-" ++ when) := by
  obtain ⟨fsf, heq, hx1, hx2, hx3⟩ := perform_migration_success_shape now hsrc hleaf hnd
    hmark hsne hbne hb hbp ht htc h1 h2 h3 h4 h5 h6
  constructor
  · rw [heq]
    rw [lookup_concat_of_dir hx2 markerName]
    have hmfind : findA (filterFiles entries) markerName = none := by
      refine findA_eq_none_of_not_mem ?_
      intro hh
      rcases List.mem_map.mp hh with ⟨e, he, hfe⟩
      exact hmark (List.mem_map.mpr ⟨e, List.mem_of_mem_filter he, hfe⟩)
    rw [findA_append_of_none _ hmfind]
    simp [findA, markerContent]
  · intro e2 when hne
    unfold backup_path
    rw [String.append_assoc (lastName e2) "-backupByFactWallet-" when,
      renderPath_snoc_suffix e2 ("-backupByFactWallet-" ++ when) hne,
      String.append_assoc]

/-- Witness for C9 (amended) at a concrete successful migration. -/
theorem claim_C9_marker_and_backup_naming_witness :
    ((perform_migration (.dir [("el", .dir [("w", .file "x")])])
        ["el"] ["bk"] ["fw"] "T").2).lookup (["fw"] ++ [markerName])
      = some (.file ("Migrated from `" ++ renderPath ["el"] ++ "` (backup: `"
          ++ renderPath ["bk"] ++ "`) to `" ++ renderPath ["fw"] ++ "` on " ++ "T"))
    ∧ renderPath (backup_path ["el"] "W")
        = renderPath ["el"] ++ "-backupByFactWallet-" ++ "W" := by
  have h := claim_C9_marker_and_backup_naming
    (.dir [("el", .dir [("w", .file "x")])]) ["el"] ["bk"] ["fw"] "T"
    [("w", .file "x")]
    (by simp [Node.lookup, findA]) (by decide) (by decide) (by decide)
    (by decide) (by decide)
    (by simp [Node.lookup, findA]) (by simp [Node.isDir, Node.lookup])
    (by simp [Node.lookup, findA]) (by simp [clearFor, findA])
    (by decide) (by decide) (by decide) (by decide) (by decide) (by decide)
  exact ⟨h.1, h.2 ["el"] "W" (by decide)⟩

/-- C7: `check_for_migration` performs no filesystem mutation, never reaches
the user prompt, and returns without error whenever the resolved target
directory already exists (whatever the source holds), and likewise whenever
the resolved source directory's config has an unrecognized fingerprint (the
detector answers false); every skip path yields the unchanged filesystem. -/
theorem claim_C7_orchestrator_skips
    (parse : String → Option Json) (consent : Bool) (when now : String)
    (co : COpts) (env : Env) (fs : Node)
    (hport : co.portable = true → co.electrum_path.isSome) :
    (fs.exists (resolved_factwallet_dir co env) = true →
        check_for_migration parse consent when now (some co) env fs = .ok (fs, false))
    ∧ ((∀ d, resolved_electrum_dir co env = some d →
          is_factwallet_data parse fs d = .ok false) →
        check_for_migration parse consent when now (some co) env fs = .ok (fs, false)) := by
  constructor
  · intro htgt
    unfold check_for_migration
    cases hand : env.android with
    | true => simp
    | false =>
        simp only [Bool.false_eq_true, if_false]
        cases hcust : co.electrum_path.isSome && !co.portable with
        | true => simp
        | false =>
            simp only [hcust, Bool.false_eq_true, if_false]
            cases hp : co.portable with
            | true =>
                obtain ⟨p, hep⟩ := Option.isSome_iff_exists.mp (hport hp)
                rw [resolved_factwallet_dir, hp, hep] at htgt
                simp only [if_true, Option.getD_some] at htgt
                simp [hp, hep, htgt]
            | false =>
                rw [resolved_factwallet_dir, hp] at htgt
                simp only [Bool.false_eq_true, if_false] at htgt
                simp [hp, htgt]
  · intro hdet
    unfold check_for_migration
    cases hand : env.android with
    | true => simp
    | false =>
        simp only [Bool.false_eq_true, if_false]
        cases hcust : co.electrum_path.isSome && !co.portable with
        | true => simp
        | false =>
            simp only [hcust, Bool.false_eq_true, if_false]
            cases hp : co.portable with
            | true =>
                obtain ⟨p, hep⟩ := Option.isSome_iff_exists.mp (hport hp)
                have hd0 : resolved_electrum_dir co env
                    = some (p.dropLast ++ ["electrum_data"]) := by
                  rw [resolved_electrum_dir, hp, hep]
                  simp
                by_cases hex : fs.exists p
                · simp [hp, hep, hex]
                · by_cases hex2 : fs.exists (p.dropLast ++ ["electrum_data"])
                  · simp [hp, hep, hex, hex2, hdet _ hd0]
                  · simp [hp, hep, hex, hex2]
            | false =>
                cases hold : env.oldUserDir with
                | none => by_cases hex : fs.exists env.userDir <;> simp [hp, hold, hex]
                | some d =>
                    have hd0 : resolved_electrum_dir co env = some d := by
                      rw [resolved_electrum_dir, hp]
                      simp [hold]
                    by_cases hex : fs.exists env.userDir
                    · simp [hp, hold, hex]
                    · by_cases hex2 : fs.exists d
                      · simp [hp, hold, hex, hex2, hdet _ hd0]
                      · simp [hp, hold, hex, hex2]

/-- Witness for C7: an existing target is skipped; an unrecognized
fingerprint (detector false on a config with no known hash) is skipped. -/
theorem claim_C7_orchestrator_skips_witness :
    check_for_migration (fun _ => some (Json.obj [])) true "W" "T"
      (some { portable := false, electrum_path := none })
      { android := false, userDir := ["fw"], oldUserDir := some ["el"] }
      (.dir [("fw", .dir []), ("el", .dir [("secret", .file "k")])])
      = .ok (.dir [("fw", .dir []), ("el", .dir [("secret", .file "k")])], false)
    ∧ check_for_migration (fun _ => some (Json.obj [("blockchain_preferred_block",
          Json.obj [("hash", Json.str "unknown")])])) true "W" "T"
      (some { portable := false, electrum_path := none })
      { android := false, userDir := ["fw"], oldUserDir := some ["el"] }
      (.dir [("el", .dir [("config", .file "{}")])])
      = .ok (.dir [("el", .dir [("config", .file "{}")])], false) := by
  constructor
  · exact (claim_C7_orchestrator_skips _ _ _ _ _ _ _
      (by intro hh; cases hh)).1
      (by simp [resolved_factwallet_dir, Node.exists, Node.lookup, findA])
  · exact (claim_C7_orchestrator_skips _ _ _ _ _ _ _
      (by intro hh; cases hh)).2
      (by
        intro d hd
        simp only [resolved_electrum_dir, Bool.false_eq_true, if_false] at hd
        obtain rfl : d = ["el"] := by
          simp at hd
          exact hd.symm
        simp [is_factwallet_data, Node.exists, Node.lookup, findA, readFile,
          FACT_MAINNET_GENESIS, FACT_TESTNET_GENESIS])
